import Mathlib

/-!
Verification development for the readme-sync core (src/catalog.js, src/filters.js,
src/api-client.js and the push/fetch command driver).

Strings are modeled as `List Char` (named `Str` below); JavaScript's
`substr`/`slice`/`startsWith` map to `List.take`/`List.drop`/`List.isPrefixOf`.
External collaborators (gray-matter front-matter parsing, node `path`, WHATWG `URL`,
`decodeURI`, Mustache rendering, the HTTP transport) are modeled as explicit Lean
functions restricted to the domain in which this program uses them; each such model
carries a doc comment stating the modeled contract.
-/

/-- Strings of the modeled program, as lists of characters. -/
abbrev Str := List Char

/-- Abbreviation turning a Lean string literal into the `List Char` representation. -/
def str (s : String) : Str := s.data

/-- The single-quote character (written via its code point). -/
def squote : Char := Char.ofNat 39

/-- Test for JavaScript's `.` regex metacharacter (no dotAll flag): any character
except the four ECMAScript line terminators. -/
def dotChar (c : Char) : Bool :=
  !(c == '\n' || c == '\r' || c == Char.ofNat 0x2028 || c == Char.ofNat 0x2029)

/-- True iff the string contains two consecutive '/' characters.  The source tests
`/(https?:)?\/\/.*/.test(href)`; since the regex is unanchored and every part except
the literal `//` is optional or matches the empty string, the test succeeds exactly
when the href contains a `//` substring. -/
def hasDoubleSlash : Str → Bool
  | '/' :: '/' :: _ => true
  | _ :: t => hasDoubleSlash t
  | [] => false

/-- Drop leading space characters (the greedy ` *` of the link regex; backtracking to
a shorter run can never help because every continuation of the pattern begins with a
non-space requirement, as argued at each use site). -/
def dropSpaces : Str → Str
  | ' ' :: t => dropSpaces t
  | s => s

/-- First index (if any) at which `pat` occurs in `s`, together with the text before
the occurrence and the text after it. -/
def splitOnMarker (pat : Str) : Str → Option (Str × Str)
  | [] => if pat.isPrefixOf [] then some ([], []) else none
  | c :: t =>
    if pat.isPrefixOf (c :: t) then some ([], (c :: t).drop pat.length)
    else (splitOnMarker pat t).map (fun p => (c :: p.1, p.2))

/-- All indices at which `pat` occurs (as a prefix of the corresponding suffix) in `s`,
in increasing order, offset by `i`. -/
def occIndicesFrom (pat : Str) : Str → Nat → List Nat
  | s, i =>
    let rest :=
      match s with
      | [] => []
      | _ :: t => occIndicesFrom pat t (i + 1)
    if pat.isPrefixOf s then i :: rest else rest

/-- All indices at which `pat` occurs in `s`, in increasing order. -/
def occIndices (pat s : Str) : List Nat := occIndicesFrom pat s 0

/-- Split a string at every occurrence of a character (modeling `String.split('\n')`). -/
def splitOnChar (sep : Char) : Str → List Str
  | [] => [[]]
  | c :: t =>
    let rest := splitOnChar sep t
    if c == sep then [] :: rest
    else
      match rest with
      | [] => [[c]]
      | r :: rs => (c :: r) :: rs

section LinkModel

/-- The data captured by one match of the link/image regex of `Link.findAll`:
`/!?\[(?<label>.*?)]\( *<?(?<href>.*?)>?( *["'(](?<title>.*?)["')])? *\)/g`. -/
structure MatchData where
  text : Str
  label : Str
  href : Str
  title : Option Str
deriving DecidableEq, Repr

/-- Scan the lazy `(?<label>.*?)]\(` part: the label is the shortest run of
non-line-terminator characters followed by the two-character sequence `](`.
Returns the label and the suffix after `](`. -/
def scanLabel : Str → Option (Str × Str)
  | ']' :: '(' :: t => some ([], t)
  | c :: t =>
    if dotChar c then (scanLabel t).map (fun p => (c :: p.1, p.2)) else none
  | [] => none

/-- Match the closing ` *\)` of the link regex: a greedy run of spaces followed by a
literal `)`.  (Backtracking the space run cannot help: shorter runs leave a space
where `)` is required.)  Returns the suffix after `)`. -/
def closeParen (s : Str) : Option Str :=
  match dropSpaces s with
  | ')' :: t => some t
  | _ => none

/-- Match the lazy `(?<title>.*?)["')]` then ` *\)` part of the optional title group:
the title is grown one non-line-terminator character at a time, trying first to close
with one of `"`, `'`, `)` followed by ` *\)` (ECMAScript lazy-quantifier order).
Returns the title and the suffix after the final `)`. -/
def scanTitle : Str → Option (Str × Str)
  | [] => none
  | c :: t =>
    match (if c == '"' || c == squote || c == ')' then closeParen t else none) with
    | some rest => some ([], rest)
    | none =>
      if dotChar c then (scanTitle t).map (fun p => (c :: p.1, p.2)) else none

/-- Match the optional title group ` *["'(](?<title>.*?)["')]` of the link regex:
a greedy run of spaces, an opening `"`, `'` or `(`, then the lazy title.
(Backtracking the space run cannot help: shorter runs leave a space where an opening
quote is required.) -/
def tryTitleGroup (s : Str) : Option (Str × Str) :=
  match dropSpaces s with
  | c :: t => if c == '"' || c == squote || c == '(' then scanTitle t else none
  | [] => none

/-- Match the tail `>?( *["'(](?<title>.*?)["')])? *\)` of the link regex at the
current position: optionally consume `>` (greedy, with backtracking), then try the
title group (greedy optional, group first), then the plain ` *\)` close.
Returns the optional captured title and the suffix after `)`. -/
def matchTail (s : Str) : Option (Option Str × Str) :=
  let afterGt : Str → Option (Option Str × Str) := fun r =>
    match tryTitleGroup r with
    | some (ti, rest) => some (some ti, rest)
    | none =>
      match closeParen r with
      | some rest => some (none, rest)
      | none => none
  match s with
  | '>' :: t =>
    match afterGt t with
    | some res => some res
    | none => afterGt s
  | _ => afterGt s

/-- Scan the lazy `(?<href>.*?)` of the link regex: the href is grown one
non-line-terminator character at a time, at each length first trying the regex tail
(`matchTail`); the shortest href whose tail matches wins. -/
def scanHref : Str → Option (Str × Option Str × Str)
  | [] => (matchTail []).map (fun p => (([] : Str), p.1, p.2))
  | c :: t =>
    match matchTail (c :: t) with
    | some (ti, rest) => some ([], ti, rest)
    | none =>
      if dotChar c then (scanHref t).map (fun p => (c :: p.1, p.2.1, p.2.2))
      else none

/-- Scan the ` *<?` part after `](` and then the href: a greedy space run, an optional
`<` (with backtracking to including it in the href), then `scanHref`.  (Backtracking
the space run cannot help, see `dropSpaces`: a tail match starting inside the space
run would begin with the same dropped spaces.) -/
def scanAfterBracket (s : Str) : Option (Str × Option Str × Str) :=
  let r := dropSpaces s
  match r with
  | '<' :: t =>
    match scanHref t with
    | some res => some res
    | none => scanHref r
  | _ => scanHref r

/-- Try to match the full link/image regex at the start of `s`.  The optional leading
`!?` is greedy; if `!` is present the following character must be `[` (falling back to
an empty `!?` cannot succeed, since the position then holds `!`, not `[`).
The matched text is the consumed span of `s`. -/
def matchAt (s : Str) : Option MatchData :=
  let core : Str → Option MatchData := fun rest =>
    match scanLabel rest with
    | none => none
    | some (label, afterBr) =>
      match scanAfterBracket afterBr with
      | none => none
      | some (href, title, remaining) =>
        let consumed := s.length - remaining.length
        some { text := s.take consumed, label := label, href := href, title := title }
  match s with
  | '!' :: '[' :: t => core t
  | '[' :: t => core t
  | _ => none

/-- Find the first regex match in `s` at or after offset `i` (the `RegExp.exec`
scan with `lastIndex = i`): the first position at which `matchAt` succeeds.
Returns the match index, the match data, and the suffix of `s` after the match. -/
def nextMatch : Str → Nat → Option (Nat × MatchData × Str)
  | [], _ => none
  | c :: t, i =>
    match matchAt (c :: t) with
    | some m => some (i, m, (c :: t).drop m.text.length)
    | none => nextMatch t (i + 1)

end LinkModel

section Classification

/-- The closed set of link classes (JavaScript subclasses of `Link`); `Image`
extends `UrlLink` in the source, which is tracked by `isUrlLinkInstance`. -/
inductive LinkTag where
  | mailto
  | xref
  | url
  | image
deriving DecidableEq, Repr

/-- Test for `link instanceof UrlLink` of the source class hierarchy:
true for `UrlLink` itself and for its subclass `Image`. -/
def isUrlLinkInstance : LinkTag → Bool
  | .url => true
  | .image => true
  | _ => false

/-- The predicate `MailtoLink.matches`: `/@/.test(href)`, i.e. the href contains `@`. -/
def MailtoLink.matches (href : Str) : Bool := href.contains '@'

/-- Character class `[a-zA-Z0-9-]` of the first xref regex. -/
def isSlugChar (c : Char) : Bool := c.isAlpha || c.isDigit || c == '-'

/-- Test of the first `XrefLink` regex `/^doc:(?<slug>[a-zA-Z0-9-]+)(#(?<anchor>.*))?/`:
the href starts with `doc:` followed by at least one slug character (the regex is not
anchored at the end, so anything may follow the captured groups). -/
def xrefDocTest (href : Str) : Bool :=
  (str "doc:").isPrefixOf href &&
    (match href.drop 4 with
     | c :: _ => isSlugChar c
     | [] => false)

/-- Test of the second `XrefLink` regex `/^#(?<anchor>.*)/`. -/
def xrefAnchorTest (href : Str) : Bool :=
  match href with
  | '#' :: _ => true
  | _ => false

/-- The predicate `XrefLink.matches`: some regex of `XrefLink.regexes` matches. -/
def XrefLink.matches (href : Str) : Bool := xrefDocTest href || xrefAnchorTest href

/-- The slug captured by the first xref regex: the maximal run of slug characters
after `doc:` (greedy `[a-zA-Z0-9-]+`). -/
def xrefDocSlug (href : Str) : Str := (href.drop 4).takeWhile isSlugChar

/-- The anchor captured after the slug: present only when `#` immediately follows the
slug run; `.*` then captures greedily up to a line terminator. -/
def xrefDocAnchor (href : Str) : Option Str :=
  match (href.drop 4).dropWhile isSlugChar with
  | '#' :: rest => some (rest.takeWhile dotChar)
  | _ => none

/-- The `XrefLink` constructor's captured groups: the first regex of
`XrefLink.regexes` that matches the href wins (doc+anchor before anchor-only). -/
def xrefCaptures (href : Str) : Option Str × Option Str :=
  if xrefDocTest href then (some (xrefDocSlug href), xrefDocAnchor href)
  else
    match href with
    | '#' :: rest => (none, some (rest.takeWhile dotChar))
    | _ => (none, none)

/-- The predicate `UrlLink.matches`: a catch-all returning true. -/
def UrlLink.matches (_ : Str) : Bool := true

/-- The ordered candidate list `[MailtoLink, XrefLink, UrlLink]` of `Link.findAll`,
as (matches-predicate, class-tag) pairs. -/
def linkClasses : List ((Str → Bool) × LinkTag) :=
  [(MailtoLink.matches, .mailto), (XrefLink.matches, .xref), (UrlLink.matches, .url)]

/-- Pick the link class for a match, as in `Link.findAll`: a text starting with `!`
yields `Image`; otherwise the first class of `linkClasses` whose `matches` accepts
the href; `none` models the warn-and-drop branch (`linkClass === undefined`). -/
def chooseLinkClass (text href : Str) : Option LinkTag :=
  if text.head? = some '!' then some .image
  else (linkClasses.find? (fun p => p.1 href)).map (fun p => p.2)

/-- One parsed link element: the common `Link` fields plus the `XrefLink` captures
(`slug`, `anchor` are set only by the `XrefLink` constructor and are `none` for the
other classes).  The owning page is not stored (in the source it is a back-reference
used only for line-number display). -/
structure Link where
  tag : LinkTag
  text : Str
  label : Str
  href : Str
  title : Option Str
  positionIndex : Nat
  slug : Option Str
  anchor : Option Str
deriving DecidableEq, Repr

/-- Construct the `Link` object for a classified match (the
`new linkClass({page, text, positionIndex, ...match.groups})` call). -/
def mkLink (tag : LinkTag) (m : MatchData) (pos : Nat) : Link :=
  let caps := if tag = .xref then xrefCaptures m.href else (none, none)
  { tag := tag, text := m.text, label := m.label, href := m.href, title := m.title,
    positionIndex := pos, slug := caps.1, anchor := caps.2 }

/-- The regex-test `isRemote()` of `Link`: see `hasDoubleSlash`. -/
def Link.isRemote (l : Link) : Bool := hasDoubleSlash l.href

/-- The complement `isLocal()` of `Link`. -/
def Link.isLocal (l : Link) : Bool := !l.isRemote

/-- The `Link.findAll` scan loop: repeatedly `exec` the regex from the current
offset, classify each match, and either collect the link or (in the
warn-and-drop branch) record the dropped href.  The loop advances past each match
(`lastIndex`), so `fuel = s.length + 1` always suffices; see `Link.findAllD`. -/
def findAllAux : Nat → Str → Nat → List Link × List Str
  | 0, _, _ => ([], [])
  | fuel + 1, s, i =>
    match nextMatch s i with
    | none => ([], [])
    | some (j, m, rest) =>
      let next := findAllAux fuel rest (j + m.text.length)
      match chooseLinkClass m.text m.href with
      | some tag => (mkLink tag m j :: next.1, next.2)
      | none => (next.1, m.href :: next.2)

/-- All links of a serialized page string, together with the hrefs dropped by the
warn-and-drop branch. -/
def Link.findAllD (s : Str) : List Link × List Str := findAllAux (s.length + 1) s 0

/-- The links collected by `Link.findAll` on a serialized page string. -/
def Link.findAll (s : Str) : List Link := (Link.findAllD s).1

/-- The number of regex matches of the scan (same loop, counting every match whether
or not it is classified). -/
def countMatchesAux : Nat → Str → Nat → Nat
  | 0, _, _ => 0
  | fuel + 1, s, i =>
    match nextMatch s i with
    | none => 0
    | some (j, m, rest) => countMatchesAux fuel rest (j + m.text.length) + 1

/-- The number of matches the `Link.findAll` loop inspects. -/
def Link.countMatches (s : Str) : Nat := countMatchesAux (s.length + 1) s 0

end Classification

section PageModel

/-- The optional `next` front-matter entry (related pages shown in the What's Next
box): a list of page slugs plus a description. -/
structure NextHeader where
  pages : List Str
  description : Str
deriving DecidableEq, Repr

/-- The front-matter headers of a page.  In the source, `hidden` may be absent
(the `hidden` getter defaults it to false) and may be the YAML string `"true"` or a
boolean; both stringify to `true`/`false` in `hashData` and serialize identically, so
it is modeled as a `Bool`. -/
structure Headers where
  title : Str
  excerpt : Str
  hidden : Bool
  next : Option NextHeader
deriving DecidableEq, Repr

/-- The `sources` getter of `Page`: the front-matter block with fixed key order
(`title`, `excerpt`, then `hidden: "true"` only when hidden), one entry per line,
wrapped in `---` delimiters, followed by the content.  Matches
`---\n` + entries joined by `\n` + `\n---\n` + content. -/
def serializeSources (h : Headers) (content : Str) : Str :=
  str "---\ntitle: \"" ++ h.title ++ str "\"\nexcerpt: \"" ++ h.excerpt ++ str "\"" ++
    (if h.hidden then str "\nhidden: \"true\"" else []) ++ str "\n---\n" ++ content

/-- Parse one front-matter line into the headers record (modeling the YAML parse of
the exact `key: "value"` line shape this program writes). -/
def parseFMLine (h : Headers) (line : Str) : Headers :=
  if (str "title: \"").isPrefixOf line && line.getLast? == some '"' then
    { h with title := (line.drop 8).dropLast }
  else if (str "excerpt: \"").isPrefixOf line && line.getLast? == some '"' then
    { h with excerpt := (line.drop 10).dropLast }
  else if line = str "hidden: \"true\"" then
    { h with hidden := true }
  else h

/-- Headers of a page with no recognized front matter (absent keys; the `hidden`
getter then yields false). -/
def defaultHeaders : Headers := { title := [], excerpt := [], hidden := false, next := none }

/-- Modeled from the external gray-matter parse as this program uses it: a string of
the form `---\n` + front-matter block + `\n---\n` + content splits into the block's
`key: "value"` entries and the content after the closing delimiter (consuming the
newline that follows it); anything else is all content with empty data.  This is the
inverse of `serializeSources` on the strings the program itself writes. -/
def matterParse (s : Str) : Headers × Str :=
  if (str "---\n").isPrefixOf s then
    match splitOnMarker (str "\n---\n") (s.drop 4) with
    | some (block, content) =>
      ((splitOnChar '\n' block).foldl parseFMLine defaultHeaders, content)
    | none => (defaultHeaders, s)
  else (defaultHeaders, s)

/-- Split a path into its `/`-separated segments. -/
def splitSegs (s : Str) : List Str := splitOnChar '/' s

/-- One step of posix path normalization: drop empty and `.` segments, let `..`
cancel the preceding real segment (keeping leading `..` runs).  The accumulator holds
the processed segments in reverse. -/
def normSegStep (acc : List Str) (seg : Str) : List Str :=
  if seg = [] || seg = ['.'] then acc
  else if seg = str ".." then
    match acc with
    | [] => [seg]
    | a :: rest => if a = str ".." then seg :: a :: rest else rest
  else seg :: acc

/-- Modeled from node `path.join` (posix) as used on the relative paths of this
program: all arguments are split into segments, normalized, and joined with `/`.
(The absolute-path and empty-result corner cases of node are outside the domain the
theorems use.) -/
def pathJoinAll (xs : List Str) : Str :=
  List.intercalate (str "/") (((xs.map splitSegs).flatten.foldl normSegStep []).reverse)

/-- Join of two paths, `path.join(a, b)`. -/
def pathJoin (a b : Str) : Str := pathJoinAll [a, b]

/-- Drop the longest common prefix of two segment lists. -/
def dropCommonSegs : List Str → List Str → List Str × List Str
  | a :: as, b :: bs => if a = b then dropCommonSegs as bs else (a :: as, b :: bs)
  | as, bs => (as, bs)

/-- Modeled from node `path.relative` on relative inputs: both paths resolve against
the same working directory (which therefore cancels), the common segment prefix is
dropped, and the result climbs with `..` for each remaining source segment before
descending into the remaining target segments. -/
def pathRelative (f t : Str) : Str :=
  let fs := ((splitSegs f).foldl normSegStep []).reverse
  let ts := ((splitSegs t).foldl normSegStep []).reverse
  let p := dropCommonSegs fs ts
  List.intercalate (str "/") (p.1.map (fun _ => str "..") ++ p.2)

/-- Modeled from ECMA-262 `decodeURI` restricted to inputs containing no `%`: on such
inputs there is no escape sequence to decode and the function is the identity.  Every
theorem invoking the rollback path confines its inputs to this domain: `baseUrlOkB`
and `hostedDirOkB` require URL-safe (hence `%`-free) base-URL and directory
characters, `hostedItemOkB` requires URL-safe hrefs for the occurrences that get
rehomed, and `rollbackItemOkB` requires the stripped suffix of a rolled-back href to
be `%`-free. -/
def decodeURIOnCleanInput (s : Str) : Str := s

/-- Modeled from WHATWG `new URL(rel, base).toString()` restricted to the domain the
theorems enforce through their hypotheses (`baseUrlOkB` for the base,
`hostedDirOkB` for the directory, and `hostedItemOkB`/`applyItemOkB` for the
hrefs): `base` an absolute http(s) URL ENDING IN `/` whose characters need no
encoding, `rel` a relative path of URL-safe characters (letters, digits, `/`, `.`,
`-`, `_`) with no empty, `.` or `..` segments.  On this domain the base's path ends
at its trailing `/` and no character is percent-encoded or normalized, so
resolution appends `rel` to `base` verbatim. -/
def newUrlToString (rel base : Str) : Str := base ++ rel

/-- One page.  `elements` is the index built by the constructor (`buildIndex`) from
the serialized form at construction time; it is NOT re-derived when `content` is
mutated later (`edit`), exactly as in the source.  Heading elements are not modeled:
the filters and the api client only ever consume `links` (see `Page.links`), and
the heading index never affects them. -/
structure Page where
  category : Str
  parent : Option Str
  slug : Str
  content : Str
  headers : Headers
  elements : List Link
deriving DecidableEq, Repr

/-- The `sources` getter: serialized form derived from the current headers and
content. -/
def Page.sources (p : Page) : Str := serializeSources p.headers p.content

/-- The `Page` constructor: stores the fields and builds the element index from the
serialized form (`buildIndex` via the `sources` getter). -/
def Page.build (category : Str) (parent : Option Str) (slug content : Str)
    (headers : Headers) : Page :=
  { category := category, parent := parent, slug := slug, content := content,
    headers := headers, elements := Link.findAll (serializeSources headers content) }

/-- The static `Page.create({category, parent, slug, sources})`: parse the sources
with gray-matter and construct a page from the parsed data and content. -/
def Page.create (category : Str) (parent : Option Str) (slug sources : Str) : Page :=
  let m := matterParse sources
  Page.build category parent slug m.2 m.1

/-- The `title` getter. -/
def Page.title (p : Page) : Str := p.headers.title

/-- The `excerpt` getter. -/
def Page.excerpt (p : Page) : Str := p.headers.excerpt

/-- The `hidden` getter (absent modeled as false, see `Headers`). -/
def Page.hidden (p : Page) : Bool := p.headers.hidden

/-- The `links` getter: the elements that are `Link` instances.  All modeled elements
are links (headings are outside the model), so this is the element index itself. -/
def Page.links (p : Page) : List Link := p.elements

/-- The `parentDirectories` getter. -/
def Page.parentDirectories (p : Page) : List Str :=
  match p.parent with
  | some parent => [p.category, parent]
  | none => [p.category]

/-- The `directory` getter: `path.join(...parentDirectories)`. -/
def Page.directory (p : Page) : Str := pathJoinAll p.parentDirectories

/-- The body canonicalization inside `hashData`: `content.endsWith('\n')` strips the
single trailing newline (`substr(0, length - 1)`), matching the canonicalization the
remote authority performs. -/
def normalizeBody (content : Str) : Str :=
  if content.getLast? == some '\n' then content.dropLast else content

/-- The `hashData` getter: title, excerpt, hidden flag and body joined with newlines,
the body's single trailing newline (if any) stripped first.  The remote-assigned
page identifier is not part of the digest input. -/
def Page.hashData (p : Page) : Str :=
  p.title ++ '\n' :: (p.excerpt ++ '\n' ::
    (str (if p.hidden then "true" else "false") ++ '\n' :: normalizeBody p.content))

/-- The `hash` getter is the SHA-1 hex digest of `hashData`.  The digest itself is an
external primitive (node crypto); content identity is modeled at the digest-input
level: equal inputs give equal digests, and the reconciliation engine's hash
comparisons are modeled as comparisons of `hashData`. -/
def Page.hashValue (p : Page) : Str := p.hashData

end PageModel

section ReplaceModel

/-- The `markdown` getter of `UrlLink` and `Image`: the canonical rendering
`[label](href)` or `[label](href "title")` (title only when truthy, i.e. nonempty),
with `Image` prefixing `!`.  (`MailtoLink`, `XrefLink` and plain `Element` have no
`markdown` implementation in the source and are never rendered by the filters.) -/
def Link.markdown (l : Link) : Str :=
  let titlePart : Str :=
    match l.title with
    | some t => if t.isEmpty then [] else ' ' :: '"' :: (t ++ ['"'])
    | none => []
  let core : Str := '[' :: (l.label ++ str "](" ++ l.href ++ titlePart ++ [')'])
  match l.tag with
  | .image => '!' :: core
  | _ => core

/-- The `copy(modifications)` of `Element` as used by the hosted-files filter:
`Object.assign(new this.constructor(this), {href})`, i.e. the same link with the
href replaced. -/
def Link.copyWithHref (l : Link) (href : Str) : Link := { l with href := href }

/-- The `replace(sources, byText)` of `Element`: splice `byText` over the span
`[position, position + text.length)` of `sources`
(`substr(0, position) + byText + substr(position + text.length)`). -/
def Link.replace (l : Link) (sources byText : Str) : Str :=
  sources.take l.positionIndex ++ byText ++ sources.drop (l.positionIndex + l.text.length)

/-- Insert into a list sorted by strictly descending element position, keeping
original order among equal positions (ECMAScript `Array.prototype.sort` is stable,
and the comparator is `(a, b) => b.position - a.position`). -/
def insertByPosDesc (x : Link × Link) : List (Link × Link) → List (Link × Link)
  | [] => [x]
  | y :: t =>
    if y.1.positionIndex ≤ x.1.positionIndex then x :: y :: t
    else y :: insertByPosDesc x t

/-- The stable descending-position sort of `replaceElements`. -/
def sortByPosDesc (rs : List (Link × Link)) : List (Link × Link) :=
  rs.foldr insertByPosDesc []

/-- The replacement fold of `replaceElements`: sort the (element, replacement) pairs
by descending position, then fold left, each step splicing the replacement's
markdown over the element's span in the current string. -/
def Page.updatedSources (p : Page) (rs : List (Link × Link)) : Str :=
  (sortByPosDesc rs).foldl (fun sources r => r.1.replace sources r.2.markdown) p.sources

/-- The `replaceElements` method: computes the updated sources and returns the fresh
page `Page.create({...this, sources: updatedSources})`; the receiver is not
modified. -/
def Page.replaceElements (p : Page) (rs : List (Link × Link)) : Page :=
  Page.create p.category p.parent p.slug (p.updatedSources rs)

/-- The `edit(content)` method: `this.content = content; return this`.  The receiver
is mutated in place and returned; this value is both the return value and the state
of the original page object after the call.  Note that `elements` is NOT rebuilt:
the index derived from the pre-edit serialized form is retained. -/
def Page.edit (p : Page) (content : Str) : Page := { p with content := content }

end ReplaceModel

section FilterModel

/-- Configuration of the hosted-files filter: the public base URL. -/
structure HostedConfig where
  baseUrl : Str
deriving DecidableEq, Repr

/-- The replacement list built by `HostedFilesFilter.apply`: for every element that
is a `UrlLink` instance (including `Image`) and is local, pair it with a copy whose
href is `new URL(path.join(page.directory, href), baseUrl).toString()`. -/
def HostedFilesFilter.applyReplacements (cfg : HostedConfig) (p : Page) :
    List (Link × Link) :=
  (p.links.filter (fun l => isUrlLinkInstance l.tag && l.isLocal)).map
    (fun l => (l, l.copyWithHref (newUrlToString (pathJoin p.directory l.href) cfg.baseUrl)))

/-- The `apply` of `HostedFilesFilter`: replace all local URL links by their hosted
counterparts (the wrapping `Promise.resolve` is immediate). -/
def HostedFilesFilter.apply (cfg : HostedConfig) (p : Page) : Page :=
  p.replaceElements (HostedFilesFilter.applyReplacements cfg p)

/-- The replacement list built by `HostedFilesFilter.rollback`: for every element
that is a `UrlLink` instance, remote, and whose href starts with the configured base
URL, pair it with a copy whose href is
`path.relative(page.directory, decodeURI(href.substr(baseUrl.length)))`. -/
def HostedFilesFilter.rollbackReplacements (cfg : HostedConfig) (p : Page) :
    List (Link × Link) :=
  (p.links.filter (fun l =>
      isUrlLinkInstance l.tag && l.isRemote && cfg.baseUrl.isPrefixOf l.href)).map
    (fun l => (l, l.copyWithHref
      (pathRelative p.directory (decodeURIOnCleanInput (l.href.drop cfg.baseUrl.length)))))

/-- The `rollback` of `HostedFilesFilter`. -/
def HostedFilesFilter.rollback (cfg : HostedConfig) (p : Page) : Page :=
  p.replaceElements (HostedFilesFilter.rollbackReplacements cfg p)

/-- The sentinel name used by `FooterFilter` (`new ContentMarker('footer')`). -/
def footerName : Str := str "footer"

/-- The opening sentinel written and matched by `ContentMarker`:
`\n[` + name + `]: #`. -/
def markerStartPat (name : Str) : Str := '\n' :: '[' :: (name ++ str "]: #")

/-- The closing sentinel written and matched by `ContentMarker`:
`[/` + name + `]: #`. -/
def markerEndPat (name : Str) : Str := '[' :: '/' :: (name ++ str "]: #")

/-- The `wrap(content)` of `ContentMarker`:
`\n[name]: #\n` + content + `\n\n[/name]: #`. -/
def ContentMarker.wrap (name content : Str) : Str :=
  markerStartPat name ++ '\n' :: (content ++ '\n' :: '\n' :: markerEndPat name)

/-- One `exec` of the `ContentMarker` regex
`\n\[name\]: #((.|[\r\n])*)\[\/name\]: #` (flags `gm`): the match starts at the first
occurrence of the opening sentinel that is followed (at or after its end) by an
occurrence of the closing sentinel; the inner group is greedy and matches any
characters, so the match extends to the END of the LAST closing-sentinel occurrence.
Returns the span `[start, stop)` of the match. -/
def markerFirstMatch (name : Str) (s : Str) : Option (Nat × Nat) :=
  let startLen := (markerStartPat name).length
  let ends := occIndices (markerEndPat name) s
  match (occIndices (markerStartPat name) s).find?
      (fun i => ends.any (fun j => i + startLen ≤ j)) with
  | some i =>
    match (ends.filter (fun j => i + startLen ≤ j)).getLast? with
    | some j => some (i, j + (markerEndPat name).length)
    | none => none
  | none => none

/-- The `replaceAll(content, () => '')` of `ContentMarker` via `asyncStringReplace`:
repeatedly find the next regex match, keep the text before it, drop the match, and
continue scanning after it (`lastIndex`).  Each match is nonempty, so
`fuel = s.length + 1` always suffices. -/
def markerRemoveAll (name : Str) : Nat → Str → Str
  | 0, s => s
  | fuel + 1, s =>
    match markerFirstMatch name s with
    | none => s
    | some (i, e) => s.take i ++ markerRemoveAll name fuel (s.drop e)

/-- The `rollback` of `FooterFilter`: remove every sentinel-delimited footer block
from the content and `edit` the page with the result. -/
def FooterFilter.rollback (p : Page) : Page :=
  p.edit (markerRemoveAll footerName (p.content.length + 1) p.content)

/-- The `apply` of `FooterFilter`: append the sentinel-wrapped rendered footer to the
content and `edit` the page.  Reading the Mustache template from disk and rendering
it with the page + configuration view are external (fs + Mustache); the rendered
text is the `rendered` parameter. -/
def FooterFilter.apply (rendered : Str) (p : Page) : Page :=
  p.edit (p.content ++ ContentMarker.wrap footerName rendered)

end FilterModel

section ApiModel

/-- A remote document payload as served and stored by the remote document authority
(the readme.io API): the remote-assigned identifier `_id` plus the content fields.
`nextPages` holds the slugs of the related-page entries (`json.next.pages`, whose
entries the program reads by their `slug` field). -/
structure RemotePayload where
  idStr : Str
  slug : Str
  title : Str
  excerpt : Str
  hidden : Bool
  body : Str
  nextPages : List Str
  nextDescription : Str
  lastUpdatedHash : Str
deriving DecidableEq, Repr

/-- One related-page relation as `pageToJson` sends it. -/
structure NextRelationJson where
  slug : Str
  name : Str
  icon : Str
  typeField : Str
deriving DecidableEq, Repr

/-- The JSON body `pageToJson` produces for a page. -/
structure PageJson where
  title : Str
  excerpt : Str
  hidden : Bool
  body : Str
  nextPages : List NextRelationJson
  nextDescription : Str
deriving DecidableEq, Repr

/-- The options consulted by the api client on the push path (`force`, `dryRun`).
The push command's options object carries no `hidden` key, so the
`if (this.options.hidden)` guard at the top of `pushPage` is always false and that
line is a no-op; it is therefore not modeled. -/
structure ApiOptions where
  force : Bool
  dryRun : Bool
deriving DecidableEq, Repr

/-- The remote transport environment: the injected failure schedule (by slug and
verb, as an HTTP status code) and the remote id assignment for categories and
created pages.  Modeled from the HTTP transport contract of the spec: a GET for an
absent document fails with status 404; all other failures are injected. -/
structure RemoteEnv where
  getFailure : Str → Option Nat
  putFailure : Str → Option Nat
  postFailure : Str → Option Nat
  categoryId : Str → Str
  assignId : Str → Str

/-- The mutable remote store: documents by slug. -/
abbrev RemoteDocs := List (Str × RemotePayload)

/-- Look up a remote document by slug. -/
def lookupDoc (docs : RemoteDocs) (slug : Str) : Option RemotePayload :=
  (docs.find? (fun d => d.1 = slug)).map (fun d => d.2)

/-- Events of one api-client run: remote calls and console reports, in order. -/
inductive ApiEvent where
  | getDoc (slug : Str)
  | getCategory (slug : Str)
  | putDoc (slug : Str)
  | postDoc (slug : Str)
  | logUnchanged (slug : Str)
  | logUpdated (slug : Str)
  | logCreated (slug : Str)
  | logDryRunUpdate (slug : Str)
  | logDryRunCreate (slug : Str)
  | logErrorMessage (code : Nat)
deriving DecidableEq, Repr

/-- The final fate of the process during a batch: still running normally, terminated
by `process.exit(code)`, or crashed by an unhandled error (an unhandled promise
rejection terminates the node process). -/
inductive Outcome where
  | ok
  | exited (code : Nat)
  | crashed
deriving DecidableEq, Repr

/-- The static `Api.jsonToPage(json, category, parent)`: build a `Page` from a remote
payload.  `next` headers are set only when `json.next.pages` is nonempty.  When
`category` is not supplied (the `pushPage` call site) it is modeled as the empty
string; only the hash of the resulting page is consulted there, and `hashData` does
not read the category. -/
def Api.jsonToPage (json : RemotePayload) (category : Str) (parent : Option Str) : Page :=
  let next : Option NextHeader :=
    if json.nextPages.length > 0 then
      some { pages := json.nextPages, description := json.nextDescription }
    else none
  Page.build category parent json.slug json.body
    { title := json.title, excerpt := json.excerpt, hidden := json.hidden, next := next }

/-- The `pageToJson(page)` conversion: content fields plus the related-page
references, each referenced slug resolved in the local catalog, unresolved
references silently dropped, resolved ones rendered as relation objects. -/
def Api.pageToJson (catalog : List Page) (page : Page) : PageJson :=
  let base : PageJson :=
    { title := page.title, excerpt := page.excerpt, hidden := page.hidden,
      body := page.content, nextPages := [], nextDescription := [] }
  match page.headers.next with
  | none => base
  | some n =>
    { base with
      nextDescription := n.description,
      nextPages :=
        (n.pages.filterMap (fun slug => catalog.find? (fun p => p.slug = slug))).map
          (fun rp =>
            { slug := rp.slug, name := rp.title, icon := str "file-text-o",
              typeField := str "doc" }) }

/-- The remote document stored by a successful PUT in `updatePage`:
`Object.assign(pageJson, {...pageToJson(localPage), lastUpdatedHash})` — the
previously fetched payload with the content fields overwritten. -/
def storedAfterPut (pageJson : RemotePayload) (catalog : List Page) (lp : Page) :
    RemotePayload :=
  let pj := Api.pageToJson catalog lp
  { pageJson with
    title := pj.title, excerpt := pj.excerpt, hidden := pj.hidden, body := pj.body,
    nextPages := pj.nextPages.map (fun r => r.slug),
    nextDescription := pj.nextDescription,
    lastUpdatedHash := lp.hashData }

/-- The remote document stored by a successful POST in `createPage`, with the
remote-assigned identifier. -/
def storedAfterPost (env : RemoteEnv) (catalog : List Page) (lp : Page) : RemotePayload :=
  let pj := Api.pageToJson catalog lp
  { idStr := env.assignId lp.slug, slug := lp.slug,
    title := pj.title, excerpt := pj.excerpt, hidden := pj.hidden, body := pj.body,
    nextPages := pj.nextPages.map (fun r => r.slug),
    nextDescription := pj.nextDescription,
    lastUpdatedHash := lp.hashData }

/-- The `loadPage(slug)` GET: an injected failure code, the stored payload, or 404
when absent. -/
def Api.loadPage (env : RemoteEnv) (docs : RemoteDocs) (slug : Str) :
    Except Nat RemotePayload :=
  match env.getFailure slug with
  | some code => .error code
  | none =>
    match lookupDoc docs slug with
    | some p => .ok p
    | none => .error 404

/-- The `updatePage(localPage, pageJson)` method: in dry-run mode only a report; else
a PUT whose failure is caught by the `.catch` handler that logs the error message and
calls `process.exit(1)`, and whose success stores the merged payload and logs the
update. -/
def Api.updatePage (env : RemoteEnv) (opts : ApiOptions) (catalog : List Page)
    (docs : RemoteDocs) (localPage : Page) (pageJson : RemotePayload) :
    RemoteDocs × List ApiEvent × Outcome :=
  if opts.dryRun then (docs, [.logDryRunUpdate localPage.slug], .ok)
  else
    match env.putFailure localPage.slug with
    | some code => (docs, [.putDoc localPage.slug, .logErrorMessage code], .exited 1)
    | none =>
      (docs.map (fun d =>
         if d.1 = localPage.slug then (d.1, storedAfterPut pageJson catalog localPage)
         else d),
       [.putDoc localPage.slug, .logUpdated localPage.slug], .ok)

/-- A SEQUENTIALIZED rendering of the `pushPage` / `createPage` /
`ensurePageExists` chain, structural on `fuel`, with `createPage` inlined at the
recursion point.  `pushPage(localPage)` GETs the remote counterpart; on success it
compares hashes and either reports "unchanged" (no force) or runs `updatePage`; on
a 404 it runs `createPage`; any other GET failure is swallowed by the bare `catch`.

IMPORTANT — faithfulness domain: the source does NOT await `updatePage`/`createPage`
in `pushPage`, so this definition (which executes them to completion before
returning) is faithful only to executions that never reach an un-awaited call:
the hash-equal skip path and the silent-skip path, where `pushPage` returns
directly after its GET and the two models coincide.  It is used ONLY for those
paths (the unchanged-skip claim).  The concurrent behavior of the real client —
the CLI loop firing `readme.pushPage(page)` without await, and the un-awaited
`updatePage`/`createPage` chains racing — is modeled faithfully by the event-loop
model below (`Task`, `Api.processTask`, `Api.runLoop`, `Api.pushLoop`), which the
batch and parent-ordering claims use. -/
def Api.pushPage : Nat → RemoteEnv → ApiOptions → List Page → RemoteDocs → Page →
    RemoteDocs × List ApiEvent × Outcome
  | 0, _, _, _, docs, _ => (docs, [], .crashed)
  | fuel + 1, env, opts, catalog, docs, localPage =>
    let createPage : RemoteDocs → List ApiEvent × (RemoteDocs × List ApiEvent × Outcome) :=
      fun docs0 =>
        let catEvents : List ApiEvent := [.getCategory localPage.category]
        let afterParent : RemoteDocs × List ApiEvent × Outcome :=
          match localPage.parent with
          | none => (docs0, [], .ok)
          | some pslug =>
            match catalog.find? (fun p => p.slug = pslug) with
            | none => (docs0, [], .crashed)
            | some parentLocal =>
              let pushed := Api.pushPage fuel env opts catalog docs0 parentLocal
              match pushed.2.2 with
              | .ok =>
                match Api.loadPage env pushed.1 pslug with
                | .ok _ => (pushed.1, pushed.2.1 ++ [.getDoc pslug], .ok)
                | .error _ => (pushed.1, pushed.2.1 ++ [.getDoc pslug], .crashed)
              | out => (pushed.1, pushed.2.1, out)
        match afterParent.2.2 with
        | .ok =>
          let docs1 := afterParent.1
          if opts.dryRun then
            (catEvents, (docs1, afterParent.2.1 ++ [.logDryRunCreate localPage.slug], .ok))
          else
            match env.postFailure localPage.slug with
            | some code =>
              (catEvents,
               (docs1, afterParent.2.1 ++ [.postDoc localPage.slug, .logErrorMessage code],
                .exited 1))
            | none =>
              (catEvents,
               (docs1 ++ [(localPage.slug, storedAfterPost env catalog localPage)],
                afterParent.2.1 ++ [.postDoc localPage.slug, .logCreated localPage.slug],
                .ok))
        | out => (catEvents, (afterParent.1, afterParent.2.1, out))
    match Api.loadPage env docs localPage.slug with
    | .ok pageJson =>
      let remotePage := Api.jsonToPage pageJson [] none
      if !opts.force && remotePage.hashData = localPage.hashData then
        (docs, [.getDoc localPage.slug, .logUnchanged localPage.slug], .ok)
      else
        let upd := Api.updatePage env opts catalog docs localPage pageJson
        (upd.1, .getDoc localPage.slug :: upd.2.1, upd.2.2)
    | .error code =>
      if code = 404 then
        let created := createPage docs
        (created.2.1, .getDoc localPage.slug :: created.1 ++ created.2.2.1, created.2.2.2)
      else (docs, [.getDoc localPage.slug], .ok)

end ApiModel

section AsyncModel

/-- A suspended continuation of the api client, waiting for the response of one
in-flight network request.  The source fires promises without awaiting them in two
places — the CLI push loop calls `readme.pushPage(page)` without `await`, and
`pushPage` fires `this.updatePage(...)` / `this.createPage(...)` without `await` —
so several requests are typically in flight at once.  The model adopts the FIFO
completion discipline: responses are processed in the order their requests were
issued, and the microtask chain released by a resolved promise runs to its next
request before the next response is processed.

* `pushGet lp resume`: `pushPage(lp)` awaiting its `loadPage` GET.  `resume` is the
  `createPage(child)` that is suspended in `await ensurePageExists` on this very
  `pushPage` promise (if any): it runs as soon as `pushPage` RESOLVES — which the
  source lets happen right after firing the un-awaited `updatePage`/`createPage`,
  NOT after they complete.
* `putResp lp pageJson`: the un-awaited `updatePage` awaiting its PUT (the fetched
  payload is captured for the `Object.assign` merge).
* `catResp lp`: the un-awaited `createPage(lp)` awaiting `loadCategory`.
* `parentGet child pslug`: `createPage(child)` awaiting its parent re-load
  `loadPage(child.parent)` after `ensurePageExists` resolved.
* `postResp lp`: `createPage(lp)` awaiting its POST. -/
inductive ApiTask where
  | pushGet (lp : Page) (resume : Option Page)
  | putResp (lp : Page) (pageJson : RemotePayload)
  | catResp (lp : Page)
  | parentGet (child : Page) (pslug : Str)
  | postResp (lp : Page)
deriving DecidableEq, Repr

/-- The microtask chain released when a `pushPage` promise resolves: the suspended
`createPage(child)` continues past `await ensurePageExists(parent)` and issues the
parent re-load GET `loadPage(child.parent)`. -/
def Api.resumeSteps : Option Page → List ApiEvent × List ApiTask
  | none => ([], [])
  | some child =>
    match child.parent with
    | some ps => ([.getDoc ps], [ApiTask.parentGet child ps])
    | none => ([], [])

/-- Process one completed response: the synchronous continuation it releases, run to
the point where every released async chain is again suspended on a request.  Returns
the updated store, the events logged and requests issued (in program order), the
newly issued requests' tasks, and a terminal outcome when the continuation calls
`process.exit` or throws into an un-awaited promise (an unhandled rejection, which
terminates the node process).

* `pushGet`: on a payload, hash-equal without force logs "unchanged"; otherwise the
  un-awaited `updatePage` issues its PUT (or logs in dry-run).  On a 404 the
  un-awaited `createPage` issues its `loadCategory` GET.  Any other GET failure is
  swallowed by the bare `catch`.  In every case `pushPage` then resolves and the
  `resume` chain runs (its request is issued AFTER the one this branch issued).
* `putResp` / `postResp`: the `.catch` handlers log the error message and call
  `process.exit(1)` on failure; success commits the store change and logs.
* `catResp`: a missing declared parent in the local catalog makes
  `ensurePageExists` throw — rejecting the un-awaited `createPage`: a crash.
  Otherwise `pushPage(parentLocal)` is entered (it issues the parent's GET) with
  this `createPage` recorded as its `resume`; without a declared parent the POST is
  issued directly (or logged in dry-run).
* `parentGet`: the parent re-load; any failure (in particular a 404 because the
  parent's own creation POST has not completed yet) rejects the un-awaited
  `createPage`: a crash.  On success the child's POST is issued. -/
def Api.processTask (env : RemoteEnv) (opts : ApiOptions) (catalog : List Page)
    (docs : RemoteDocs) : ApiTask → RemoteDocs × List ApiEvent × List ApiTask × Option Outcome
  | .pushGet lp resume =>
    let res := Api.resumeSteps resume
    match Api.loadPage env docs lp.slug with
    | .ok pageJson =>
      if !opts.force && (Api.jsonToPage pageJson [] none).hashData = lp.hashData then
        (docs, .logUnchanged lp.slug :: res.1, res.2, none)
      else if opts.dryRun then
        (docs, .logDryRunUpdate lp.slug :: res.1, res.2, none)
      else
        (docs, .putDoc lp.slug :: res.1, ApiTask.putResp lp pageJson :: res.2, none)
    | .error code =>
      if code = 404 then
        (docs, .getCategory lp.category :: res.1, ApiTask.catResp lp :: res.2, none)
      else
        (docs, res.1, res.2, none)
  | .putResp lp pageJson =>
    match env.putFailure lp.slug with
    | some code => (docs, [.logErrorMessage code], [], some (.exited 1))
    | none =>
      (docs.map (fun d =>
         if d.1 = lp.slug then (d.1, storedAfterPut pageJson catalog lp) else d),
       [.logUpdated lp.slug], [], none)
  | .catResp lp =>
    match lp.parent with
    | some ps =>
      match catalog.find? (fun p => p.slug = ps) with
      | none => (docs, [], [], some .crashed)
      | some parentLocal =>
        (docs, [.getDoc parentLocal.slug], [ApiTask.pushGet parentLocal (some lp)], none)
    | none =>
      if opts.dryRun then (docs, [.logDryRunCreate lp.slug], [], none)
      else (docs, [.postDoc lp.slug], [ApiTask.postResp lp], none)
  | .parentGet child pslug =>
    match Api.loadPage env docs pslug with
    | .ok _ =>
      if opts.dryRun then (docs, [.logDryRunCreate child.slug], [], none)
      else (docs, [.postDoc child.slug], [ApiTask.postResp child], none)
    | .error _ => (docs, [], [], some .crashed)
  | .postResp lp =>
    match env.postFailure lp.slug with
    | some code => (docs, [.logErrorMessage code], [], some (.exited 1))
    | none =>
      (docs ++ [(lp.slug, storedAfterPost env catalog lp)], [.logCreated lp.slug], [], none)

/-- The event loop: process pending responses in FIFO order (newly issued requests
go to the back of the completion queue), accumulating the event trace.  A terminal
outcome (`process.exit` or a crash by unhandled rejection) stops the node process:
the remaining completions are never observed.  Structural on `fuel`; every theorem
supplies enough. -/
def Api.runLoop : Nat → RemoteEnv → ApiOptions → List Page → RemoteDocs → List ApiTask →
    RemoteDocs × List ApiEvent × Outcome
  | 0, _, _, _, docs, _ => (docs, [], .crashed)
  | _ + 1, _, _, _, docs, [] => (docs, [], .ok)
  | fuel + 1, env, opts, catalog, docs, t :: queue =>
    let step := Api.processTask env opts catalog docs t
    match step.2.2.2 with
    | some out => (step.1, step.2.1, out)
    | none =>
      let r := Api.runLoop fuel env opts catalog step.1 (queue ++ step.2.2.1)
      (r.1, step.2.1 ++ r.2.1, r.2.2)

/-- The push loop of the CLI `push` command (no content filters configured): the
`for` loop calls `readme.pushPage(page)` WITHOUT `await` for each selected page, so
every page's initial GET is issued synchronously up front, in catalog order; all
responses are then handled by the event loop. -/
def Api.pushLoop (fuel : Nat) (env : RemoteEnv) (opts : ApiOptions)
    (catalog : List Page) (pages : List Page) (docs : RemoteDocs) :
    RemoteDocs × List ApiEvent × Outcome :=
  let r := Api.runLoop fuel env opts catalog docs
    (pages.map (fun p => ApiTask.pushGet p none))
  (r.1, pages.map (fun p => ApiEvent.getDoc p.slug) ++ r.2.1, r.2.2)

end AsyncModel

section HashTheorems

/-- Helper: cancel an identical suffix of an append equation. -/
theorem append_cancel_suffix {a b r : Str} (h : a ++ r = b ++ r) : a = b :=
  List.append_cancel_right h

/-- The two hidden-flag digest strings differ. -/
theorem hiddenStringsDiffer : str "true" ≠ str "false" := by decide

/-- C3.  The identity hash (modeled at its digest-input level, see `Page.hashValue`)
is a pure function of exactly (title, excerpt, hidden flag, body with a single
trailing newline stripped), digested in that order, and excludes the remote-assigned
identifier: payloads differing only in `_id` give pages with equal digest inputs, and
with the other three fields fixed, the digest inputs are equal exactly when the
remaining field (body after newline normalization) is equal. -/
theorem claim_C3 :
    (∀ (json : RemotePayload) (id1 id2 : Str) (cat : Str) (par : Option Str),
      (Api.jsonToPage { json with idStr := id1 } cat par).hashData =
        (Api.jsonToPage { json with idStr := id2 } cat par).hashData) ∧
    (∀ p q : Page, p.excerpt = q.excerpt → p.hidden = q.hidden →
      normalizeBody p.content = normalizeBody q.content →
      (p.hashData = q.hashData ↔ p.title = q.title)) ∧
    (∀ p q : Page, p.title = q.title → p.hidden = q.hidden →
      normalizeBody p.content = normalizeBody q.content →
      (p.hashData = q.hashData ↔ p.excerpt = q.excerpt)) ∧
    (∀ p q : Page, p.title = q.title → p.excerpt = q.excerpt →
      normalizeBody p.content = normalizeBody q.content →
      (p.hashData = q.hashData ↔ p.hidden = q.hidden)) ∧
    (∀ p q : Page, p.title = q.title → p.excerpt = q.excerpt → p.hidden = q.hidden →
      (p.hashData = q.hashData ↔ normalizeBody p.content = normalizeBody q.content)) := by
  refine ⟨?_, ?_, ?_, ?_, ?_⟩
  · intro json id1 id2 cat par
    rfl
  · intro p q he hh hc
    unfold Page.hashData
    rw [he, hh, hc]
    constructor
    · intro h
      exact append_cancel_suffix h
    · intro h; rw [h]
  · intro p q ht hh hc
    unfold Page.hashData
    rw [ht, hh, hc]
    constructor
    · intro h
      have h2 := List.append_cancel_left h
      have h3 := List.cons_injective h2
      exact append_cancel_suffix h3
    · intro h; rw [h]
  · intro p q ht he hc
    unfold Page.hashData
    rw [ht, he, hc]
    constructor
    · intro h
      have h2 := List.append_cancel_left h
      have h3 := List.cons_injective h2
      have h4 := List.append_cancel_left h3
      have h5 := List.cons_injective h4
      have h6 := append_cancel_suffix h5
      by_contra hne
      rcases Bool.eq_false_or_eq_true p.hidden with hp | hp <;>
        rcases Bool.eq_false_or_eq_true q.hidden with hq | hq <;>
          simp [hp, hq] at hne h6 <;>
            first
              | exact hiddenStringsDiffer h6
              | exact hiddenStringsDiffer h6.symm
    · intro h; rw [h]
  · intro p q ht he hh
    unfold Page.hashData
    rw [ht, he, hh]
    constructor
    · intro h
      have h2 := List.append_cancel_left h
      have h3 := List.cons_injective h2
      have h4 := List.append_cancel_left h3
      have h5 := List.cons_injective h4
      have h6 := List.append_cancel_left h5
      exact List.cons_injective h6
    · intro h; rw [h]

end HashTheorems

section HashWitness

/-- A remote payload used to witness the identifier-exclusion part of C3. -/
def c3json : RemotePayload :=
  { idStr := [], slug := str "s", title := str "T", excerpt := str "E", hidden := false,
    body := str "B", nextPages := [], nextDescription := [], lastUpdatedHash := [] }

/-- A small concrete page for the C3 witness. -/
def c3a : Page :=
  { category := str "c", parent := none, slug := str "s", content := str "body",
    headers := { title := str "t1", excerpt := str "e", hidden := false, next := none },
    elements := [] }

/-- The same page with a different title. -/
def c3b : Page := { c3a with headers := { c3a.headers with title := str "t2" } }

/-- The same page with a trailing newline added to the body (normalizes away). -/
def c3c : Page := { c3a with content := str "body\n" }

/-- The same page with a genuinely different body. -/
def c3d : Page := { c3a with content := str "body2" }

/-- Witness for C3 at concrete inputs: identifier changes never change the digest
input; a title change does; a trailing-newline-only body change does not; a real
body change does. -/
theorem claim_C3_witness :
    (Api.jsonToPage { c3json with idStr := str "id1" } [] none).hashData =
      (Api.jsonToPage { c3json with idStr := str "id2" } [] none).hashData ∧
    c3a.hashData ≠ c3b.hashData ∧
    c3a.hashData = c3c.hashData ∧
    c3a.hashData ≠ c3d.hashData :=
  ⟨claim_C3.1 c3json (str "id1") (str "id2") [] none,
   fun h => absurd ((claim_C3.2.1 c3a c3b rfl rfl rfl).mp h) (by decide),
   (claim_C3.2.2.2.2 c3a c3c rfl rfl rfl).mpr (by decide),
   fun h => absurd ((claim_C3.2.2.2.2 c3a c3d rfl rfl rfl).mp h) (by decide)⟩

end HashWitness

section ReplacerTheorems

/-- Span validity of an element against a frozen serialized form: the stored text is
exactly the span of the string at the stored position. -/
def SpanValid (s : Str) (l : Link) : Prop :=
  l.text = (s.drop l.positionIndex).take l.text.length

instance (s : Str) (l : Link) : Decidable (SpanValid s l) := by
  unfold SpanValid
  infer_instance

/-- A valid nonempty span lies within the string. -/
theorem spanValid_bounds {s : Str} {l : Link} (h : SpanValid s l)
    (hpos : 0 < l.text.length) : l.positionIndex + l.text.length ≤ s.length := by
  have hlen : l.text.length = min l.text.length (s.length - l.positionIndex) := by
    conv_lhs => rw [h]
    simp [List.length_take, List.length_drop]
  rcases Nat.le_total l.text.length (s.length - l.positionIndex) with hle | hle
  · omega
  · rw [min_eq_right hle] at hlen
    omega

/-- C5.  For two elements of the same frozen serialized form whose (nonempty) spans
do not overlap, `replaceElements`'s replacement fold produces the string obtained by
manually splicing both replacement texts into their spans, and the result is
identical for either relative ordering of the two items in the input batch (the
algorithm sorts by descending start offset before folding). -/
theorem claim_C5 (p : Page) (e1 e2 r1 r2 : Link)
    (h1 : SpanValid p.sources e1) (h2 : SpanValid p.sources e2)
    (hl1 : 0 < e1.text.length) (hl2 : 0 < e2.text.length)
    (hdisj : e1.positionIndex + e1.text.length ≤ e2.positionIndex) :
    p.updatedSources [(e1, r1), (e2, r2)] =
      p.sources.take e1.positionIndex ++ r1.markdown ++
        ((p.sources.drop (e1.positionIndex + e1.text.length)).take
          (e2.positionIndex - (e1.positionIndex + e1.text.length))) ++ r2.markdown ++
        p.sources.drop (e2.positionIndex + e2.text.length) ∧
    p.updatedSources [(e2, r2), (e1, r1)] = p.updatedSources [(e1, r1), (e2, r2)] := by
  set S := p.sources with hS
  have hb1 : e1.positionIndex + e1.text.length ≤ S.length := spanValid_bounds h1 hl1
  have hb2 : e2.positionIndex + e2.text.length ≤ S.length := spanValid_bounds h2 hl2
  have hlt : e1.positionIndex < e2.positionIndex := by omega
  have hsort1 : sortByPosDesc [(e1, r1), (e2, r2)] = [(e2, r2), (e1, r1)] := by
    simp only [sortByPosDesc, List.foldr, insertByPosDesc]
    rw [if_neg (by simpa using Nat.not_le_of_lt hlt)]
  have hsort2 : sortByPosDesc [(e2, r2), (e1, r1)] = [(e2, r2), (e1, r1)] := by
    simp only [sortByPosDesc, List.foldr, insertByPosDesc]
    rw [if_pos (Nat.le_of_lt hlt)]
  have hp2len : (S.take e2.positionIndex).length = e2.positionIndex := by
    simp [List.length_take]
    omega
  have hmain :
      e1.replace (e2.replace S r2.markdown) r1.markdown =
        S.take e1.positionIndex ++ r1.markdown ++
          ((S.drop (e1.positionIndex + e1.text.length)).take
            (e2.positionIndex - (e1.positionIndex + e1.text.length))) ++ r2.markdown ++
          S.drop (e2.positionIndex + e2.text.length) := by
    unfold Link.replace
    have htake :
        ((S.take e2.positionIndex ++ (r2.markdown ++ S.drop (e2.positionIndex + e2.text.length))).take
          e1.positionIndex) = S.take e1.positionIndex := by
      rw [List.take_append_of_le_length (by omega)]
      rw [List.take_take]
      congr 1
      omega
    have hdrop :
        ((S.take e2.positionIndex ++ (r2.markdown ++ S.drop (e2.positionIndex + e2.text.length))).drop
          (e1.positionIndex + e1.text.length)) =
          (S.drop (e1.positionIndex + e1.text.length)).take
            (e2.positionIndex - (e1.positionIndex + e1.text.length)) ++
            (r2.markdown ++ S.drop (e2.positionIndex + e2.text.length)) := by
      rw [List.drop_append_of_le_length (by omega)]
      rw [List.drop_take]
    simp only [List.append_assoc]
    rw [htake, hdrop]
  constructor
  · show (sortByPosDesc [(e1, r1), (e2, r2)]).foldl
      (fun sources r => r.1.replace sources r.2.markdown) S = _
    rw [hsort1]
    simpa using hmain
  · show (sortByPosDesc [(e2, r2), (e1, r1)]).foldl
      (fun sources r => r.1.replace sources r.2.markdown) S =
      (sortByPosDesc [(e1, r1), (e2, r2)]).foldl
      (fun sources r => r.1.replace sources r.2.markdown) S
    rw [hsort1, hsort2]

end ReplacerTheorems

section ReplacerWitness

/-- A concrete page for the C5 witness; its serialized form holds two links at
offsets 34 and 42. -/
def c5page : Page :=
  { category := str "c", parent := none, slug := str "s",
    content := str "ab[x](u)cd[y](v)ef",
    headers := { title := str "t", excerpt := str "e", hidden := false, next := none },
    elements := [] }

/-- The first (lower-offset) element of the C5 witness. -/
def c5e1 : Link :=
  { tag := .url, text := str "[x](u)", label := str "x", href := str "u", title := none,
    positionIndex := 34, slug := none, anchor := none }

/-- The second (higher-offset) element of the C5 witness. -/
def c5e2 : Link :=
  { tag := .url, text := str "[y](v)", label := str "y", href := str "v", title := none,
    positionIndex := 42, slug := none, anchor := none }

/-- The replacement for the first element. -/
def c5r1 : Link := { c5e1 with href := str "nu1" }

/-- The replacement for the second element. -/
def c5r2 : Link := { c5e2 with href := str "nu2" }

/-- Witness for C5 at concrete inputs. -/
theorem claim_C5_witness :
    c5page.updatedSources [(c5e1, c5r1), (c5e2, c5r2)] =
      c5page.sources.take c5e1.positionIndex ++ c5r1.markdown ++
        ((c5page.sources.drop (c5e1.positionIndex + c5e1.text.length)).take
          (c5e2.positionIndex - (c5e1.positionIndex + c5e1.text.length))) ++ c5r2.markdown ++
        c5page.sources.drop (c5e2.positionIndex + c5e2.text.length) ∧
    c5page.updatedSources [(c5e2, c5r2), (c5e1, c5r1)] =
      c5page.updatedSources [(c5e1, c5r1), (c5e2, c5r2)] :=
  claim_C5 c5page c5e1 c5e2 c5r1 c5r2 (by decide) (by decide) (by decide) (by decide)
    (by decide)

end ReplacerWitness

section ClassificationTheorems

/-- The outcome of the classifier chain: image for a leading image marker, otherwise
the first of mailto / xref / url whose predicate accepts the href. -/
def classifySpec (t h : Str) : LinkTag :=
  if t.head? = some '!' then .image
  else if MailtoLink.matches h then .mailto
  else if XrefLink.matches h then .xref
  else .url

/-- The classifier of `Link.findAll` always succeeds and follows the fixed priority
order (`UrlLink.matches` is a catch-all). -/
theorem chooseLinkClass_eq_spec (t h : Str) :
    chooseLinkClass t h = some (classifySpec t h) := by
  unfold chooseLinkClass classifySpec
  by_cases hb : t.head? = some '!'
  · simp [hb]
  · rcases hm : MailtoLink.matches h <;> rcases hx : XrefLink.matches h <;>
      simp [hb, hm, hx, linkClasses, List.find?, UrlLink.matches]

/-- Every link collected by the findAll loop arises from a classified match. -/
theorem findAllAux_mem {fuel : Nat} :
    ∀ {s : Str} {i : Nat} {l : Link}, l ∈ (findAllAux fuel s i).1 →
      ∃ (m : MatchData) (pos : Nat), l = mkLink (classifySpec m.text m.href) m pos := by
  induction fuel with
  | zero => intro s i l h; simp [findAllAux] at h
  | succ fuel ih =>
    intro s i l h
    unfold findAllAux at h
    rcases hnm : nextMatch s i with _ | ⟨j, m, rest⟩
    · rw [hnm] at h; simp at h
    · simp only [hnm, chooseLinkClass_eq_spec, List.mem_cons] at h
      rcases h with h | h
      · exact ⟨m, j, h⟩
      · exact ih h

/-- Fields of a constructed link. -/
theorem mkLink_fields (tag : LinkTag) (m : MatchData) (pos : Nat) :
    (mkLink tag m pos).tag = tag ∧ (mkLink tag m pos).text = m.text ∧
      (mkLink tag m pos).href = m.href := by
  unfold mkLink
  exact ⟨rfl, rfl, rfl⟩

/-- C4 (amended).  Every link produced by `Link.findAll` is classified by the fixed
priority order — leading image marker, then `@`-href as mailto, then the xref
patterns, then the url catch-all — and in particular every produced link whose text
does NOT start with the image marker and whose href is exactly `doc:foo` is an
`XrefLink`, never a `UrlLink`.  (A match whose text starts with the image marker
becomes an `Image`, which in the source class hierarchy IS a `UrlLink`; see the
counterexample.) -/
theorem claim_C4 (s : Str) (l : Link) (hmem : l ∈ Link.findAll s) :
    (l.tag = .image ↔ l.text.head? = some '!') ∧
    (l.tag = .mailto ↔ l.text.head? ≠ some '!' ∧ MailtoLink.matches l.href = true) ∧
    (l.tag = .xref ↔ l.text.head? ≠ some '!' ∧ MailtoLink.matches l.href = false ∧
      XrefLink.matches l.href = true) ∧
    (l.tag = .url ↔ l.text.head? ≠ some '!' ∧ MailtoLink.matches l.href = false ∧
      XrefLink.matches l.href = false) ∧
    (l.href = str "doc:foo" → l.text.head? ≠ some '!' → l.tag = .xref) := by
  obtain ⟨m, pos, rfl⟩ := findAllAux_mem hmem
  obtain ⟨htag, htext, hhref⟩ := mkLink_fields (classifySpec m.text m.href) m pos
  rw [htag, htext, hhref]
  unfold classifySpec
  have hxfoo : m.href = str "doc:foo" → XrefLink.matches m.href = true := by
    intro h; rw [h]; decide
  have hmfoo : m.href = str "doc:foo" → MailtoLink.matches m.href = false := by
    intro h; rw [h]; decide
  by_cases hb : m.text.head? = some '!'
  · simp [hb]
  · rcases hm : MailtoLink.matches m.href
    · rcases hx : XrefLink.matches m.href
      · simp [hb, hm, hx]
        intro h
        exact absurd (hx.symm.trans (hxfoo h)) (by decide)
      · simp [hb, hm, hx]
    · rcases hx : XrefLink.matches m.href
      · simp [hb, hm, hx]
        intro h
        exact absurd (hx.symm.trans (hxfoo h)) (by decide)
      · simp [hb, hm, hx]
        intro h
        exact absurd (hm.symm.trans (hmfoo h)) (by decide)

/-- The single link parsed from `[d](doc:foo)`, used as the C4 witness input. -/
def c4link : Link :=
  { tag := .xref, text := str "[d](doc:foo)", label := str "d", href := str "doc:foo",
    title := none, positionIndex := 0, slug := some (str "foo"), anchor := none }

/-- Witness for C4 at a concrete input: the link of `[d](doc:foo)` is produced by the
scan and classified `XrefLink` by the priority order. -/
theorem claim_C4_witness :
    c4link ∈ Link.findAll (str "[d](doc:foo)") ∧ c4link.tag = LinkTag.xref :=
  ⟨by decide,
   (claim_C4 (str "[d](doc:foo)") c4link (by decide)).2.2.2.2 (by decide) (by decide)⟩

/-- C4 counterexample.  For the parsed link of `![a](doc:foo)` — an image whose href
is exactly `doc:foo` — the produced element is an `Image` (in the source hierarchy an
instance of `UrlLink`), not an `XrefLink`: the claim's universal statement "for every
parsed link whose href is exactly doc:foo, the produced element is an XrefLink,
never a UrlLink" fails on image matches, because the image-marker rule has priority. -/
theorem claim_C4_counterexample :
    (Link.findAll (str "![a](doc:foo)")).map Link.href = [str "doc:foo"] ∧
    (Link.findAll (str "![a](doc:foo)")).map Link.tag = [.image] ∧
    isUrlLinkInstance .image = true ∧
    LinkTag.image ≠ LinkTag.xref := by
  refine ⟨by decide, by decide, by decide, by decide⟩

end ClassificationTheorems

section TotalityTheorems

/-- The findAll loop never drops a match and collects exactly one link per match. -/
theorem findAllAux_total (fuel : Nat) :
    ∀ (s : Str) (i : Nat), (findAllAux fuel s i).2 = [] ∧
      (findAllAux fuel s i).1.length = countMatchesAux fuel s i := by
  induction fuel with
  | zero => intro s i; simp [findAllAux, countMatchesAux]
  | succ fuel ih =>
    intro s i
    unfold findAllAux countMatchesAux
    rcases hnm : nextMatch s i with _ | ⟨j, m, rest⟩
    · simp
    · simp only [chooseLinkClass_eq_spec, List.length_cons]
      exact ⟨(ih rest (j + m.text.length)).1,
        by rw [(ih rest (j + m.text.length)).2]⟩

/-- C10.  Link parsing is total on matches: scanning any serialized page string,
every regex match produces an element — image-marker matches become `Image`, every
other match is classified by the ordered list whose final entry `UrlLink.matches`
accepts every href — so the warn-and-drop branch is unreachable: the dropped-href
list is always empty, the number of collected links equals the number of matches,
and the classifier chain always succeeds. -/
theorem claim_C10 (s : Str) :
    (Link.findAllD s).2 = [] ∧
    (Link.findAll s).length = Link.countMatches s ∧
    (∀ t h : Str, (chooseLinkClass t h).isSome = true) := by
  refine ⟨(findAllAux_total _ s 0).1, (findAllAux_total _ s 0).2, ?_⟩
  intro t h
  rw [chooseLinkClass_eq_spec]
  rfl

/-- Witness for C10 at a concrete input (a page text with all four link classes and
an image). -/
theorem claim_C10_witness :
    (Link.findAllD (str "x ![i](a.png) [m](a@b) [d](doc:z) [u](h)")).2 = [] ∧
    (Link.findAll (str "x ![i](a.png) [m](a@b) [d](doc:z) [u](h)")).length =
      Link.countMatches (str "x ![i](a.png) [m](a@b) [d](doc:z) [u](h)") :=
  ⟨(claim_C10 (str "x ![i](a.png) [m](a@b) [d](doc:z) [u](h)")).1,
   (claim_C10 (str "x ![i](a.png) [m](a@b) [d](doc:z) [u](h)")).2.1⟩

end TotalityTheorems

section ImmutabilityTheorems

/-- A concrete page holding one link, for the C9 counterexample. -/
def c9page : Page :=
  Page.build (str "c") none (str "s") (str "see [a](x.png)")
    { title := str "t", excerpt := str "e", hidden := false, next := none }

/-- C9 counterexample.  The footer filter's content edit (`Page.edit`, which performs
`this.content = content; return this`) mutates the Document in place: afterwards the
original object's serialized form differs from what it was, while its element index
is NOT re-derived (it still holds the stale pre-edit elements) — contradicting the
claim that every content change produces a new Document leaving the original's
serialized form and elements unchanged. -/
theorem claim_C9_counterexample :
    (FooterFilter.apply (str "Hello") c9page).sources ≠ c9page.sources ∧
    (FooterFilter.apply (str "Hello") c9page).elements = c9page.elements ∧
    FooterFilter.apply (str "Hello") c9page =
      { c9page with content := c9page.content ++ ContentMarker.wrap footerName (str "Hello") } := by
  refine ⟨by decide, rfl, rfl⟩

/-- C9 (amended).  `replaceElements` does produce a fresh Document — its element
index is re-derived from its own new serialized form, and its content is re-parsed
from the updated sources — but `Page.edit` (the content edit used by the footer
filter) mutates the receiver in place and returns it: the returned value is the
receiver's post-call state, with the new content and the stale pre-edit element
index. -/
theorem claim_C9 (p : Page) (rs : List (Link × Link)) (c : Str) :
    (p.replaceElements rs).elements = Link.findAll (p.replaceElements rs).sources ∧
    (p.replaceElements rs).content = (matterParse (p.updatedSources rs)).2 ∧
    Page.edit p c = { p with content := c } ∧
    (Page.edit p c).elements = p.elements :=
  ⟨rfl, rfl, rfl, rfl⟩

end ImmutabilityTheorems

section PushTheorems

/-- Appending a fresh document to the store makes its slug resolvable. -/
theorem lookupDoc_append_of_none {docs : RemoteDocs} {s : Str} {x : RemotePayload}
    (h : lookupDoc docs s = none) : lookupDoc (docs ++ [(s, x)]) s = some x := by
  unfold lookupDoc at h ⊢
  have hf : docs.find? (fun d => d.1 = s) = none := by
    rcases hx : docs.find? (fun d => d.1 = s) with _ | d
    · exact hx
    · rw [hx] at h
      simp at h
  rw [List.find?_append, hf]
  simp [List.find?]

/-- C6.  When pushing a local document whose remote counterpart exists and whose
hash (the digest of the fetched remote content) equals the local document's identity
hash, with no force override requested, the engine performs no update or create call
and reports the document as unchanged: the remote state is untouched and the only
events are the lookup GET and the "unchanged" report. -/
theorem claim_C6 (fuel : Nat) (env : RemoteEnv) (opts : ApiOptions) (catalog : List Page)
    (docs : RemoteDocs) (lp : Page) (json : RemotePayload)
    (hget : env.getFailure lp.slug = none)
    (hdoc : lookupDoc docs lp.slug = some json)
    (hforce : opts.force = false)
    (hhash : (Api.jsonToPage json [] none).hashData = lp.hashData) :
    Api.pushPage (fuel + 1) env opts catalog docs lp =
      (docs, [.getDoc lp.slug, .logUnchanged lp.slug], .ok) := by
  unfold Api.pushPage
  simp [Api.loadPage, hget, hdoc, hforce, hhash]

/-- Page and payload for the C6 witness: identical content on both sides. -/
def c6env : RemoteEnv :=
  { getFailure := fun _ => none, putFailure := fun _ => none,
    postFailure := fun _ => none, categoryId := fun _ => [], assignId := fun _ => [] }

/-- Options with neither force nor dry-run. -/
def plainOpts : ApiOptions := { force := false, dryRun := false }

/-- The local page of the C6 witness. -/
def c6page : Page :=
  Page.build (str "c") none (str "pg") (str "Hello")
    { title := str "T", excerpt := str "E", hidden := false, next := none }

/-- The matching remote payload of the C6 witness. -/
def c6payload : RemotePayload :=
  { idStr := str "i", slug := str "pg", title := str "T", excerpt := str "E",
    hidden := false, body := str "Hello", nextPages := [], nextDescription := [],
    lastUpdatedHash := [] }

/-- Witness for C6 at concrete inputs. -/
theorem claim_C6_witness :
    Api.pushPage 1 c6env plainOpts [] [(str "pg", c6payload)] c6page =
      ([(str "pg", c6payload)],
       [.getDoc (str "pg"), .logUnchanged (str "pg")], .ok) :=
  claim_C6 0 c6env plainOpts [] [(str "pg", c6payload)] c6page c6payload rfl (by decide)
    rfl (by decide)

/-- C2 (amended).  During a push batch (dry-run off), in the fire-and-forget event
loop the CLI actually runs: a transport failure other than 404 while LOADING a
document's remote counterpart silently drops only that document (nothing beyond its
GET is reported) and the remaining documents' processing is unaffected; but a
transport failure during an UPDATE call has its message logged and terminates the
entire process with exit code 1 (`process.exit` in the `.catch` handler of
`updatePage`) — in-flight work of OTHER documents is abandoned, so the batch does
not run to completion.  (Because the loop does not await `pushPage`, the other
documents' GETs are issued before the failing PUT's response arrives; the
two-document conclusion exhibits both the issued GET of the second document and the
batch-wide abort.) -/
theorem claim_C2 (fuel : Nat) (env : RemoteEnv) (opts : ApiOptions) (catalog : List Page)
    (docs : RemoteDocs) (p : Page) (rest : List Page) (code : Nat) :
    (env.getFailure p.slug = some code → code ≠ 404 →
      Api.pushLoop (fuel + 1) env opts catalog (p :: rest) docs =
        ((Api.pushLoop fuel env opts catalog rest docs).1,
         .getDoc p.slug :: (Api.pushLoop fuel env opts catalog rest docs).2.1,
         (Api.pushLoop fuel env opts catalog rest docs).2.2)) ∧
    (∀ (pb : Page) (jsonA jsonB : RemotePayload),
      opts.dryRun = false → opts.force = false →
      env.getFailure p.slug = none → env.getFailure pb.slug = none →
      lookupDoc docs p.slug = some jsonA →
      lookupDoc docs pb.slug = some jsonB →
      (Api.jsonToPage jsonA [] none).hashData ≠ p.hashData →
      (Api.jsonToPage jsonB [] none).hashData = pb.hashData →
      env.putFailure p.slug = some code →
      Api.pushLoop (fuel + 3) env opts catalog [p, pb] docs =
        (docs, [.getDoc p.slug, .getDoc pb.slug, .putDoc p.slug,
                .logUnchanged pb.slug, .logErrorMessage code], .exited 1)) := by
  constructor
  · intro hget hcode
    unfold Api.pushLoop
    dsimp only []
    rw [List.map_cons, List.map_cons, Api.runLoop]
    dsimp only []
    rw [show Api.processTask env opts catalog docs (ApiTask.pushGet p none) =
        (docs, [], [], none) from by
      unfold Api.processTask Api.resumeSteps
      simp [Api.loadPage, hget, hcode]]
    simp
  · intro pb jsonA jsonB hdry hforce hgP hgB hdocA hdocB hneA heqB hput
    have hstep1 : Api.processTask env opts catalog docs (ApiTask.pushGet p none) =
        (docs, [.putDoc p.slug], [ApiTask.putResp p jsonA], none) := by
      unfold Api.processTask Api.resumeSteps
      simp [Api.loadPage, hgP, hdocA, hneA, hforce, hdry]
    have hstep2 : Api.processTask env opts catalog docs (ApiTask.pushGet pb none) =
        (docs, [.logUnchanged pb.slug], [], none) := by
      unfold Api.processTask Api.resumeSteps
      simp [Api.loadPage, hgB, hdocB, heqB, hforce]
    have hstep3 : Api.processTask env opts catalog docs (ApiTask.putResp p jsonA) =
        (docs, [.logErrorMessage code], [], some (.exited 1)) := by
      unfold Api.processTask
      simp [hput]
    have hr1 : Api.runLoop (fuel + 1) env opts catalog docs [ApiTask.putResp p jsonA] =
        (docs, [.logErrorMessage code], .exited 1) := by
      rw [Api.runLoop]
      dsimp only []
      rw [hstep3]
    have hr2 : Api.runLoop (fuel + 2) env opts catalog docs
        [ApiTask.pushGet pb none, ApiTask.putResp p jsonA] =
        (docs, [.logUnchanged pb.slug, .logErrorMessage code], .exited 1) := by
      rw [show fuel + 2 = (fuel + 1) + 1 from rfl, Api.runLoop]
      dsimp only []
      rw [hstep2]
      dsimp only []
      rw [show ([ApiTask.putResp p jsonA] ++ ([] : List ApiTask)) =
        [ApiTask.putResp p jsonA] from by simp]
      rw [hr1]
      rfl
    have hr3 : Api.runLoop (fuel + 3) env opts catalog docs
        [ApiTask.pushGet p none, ApiTask.pushGet pb none] =
        (docs, [.putDoc p.slug, .logUnchanged pb.slug, .logErrorMessage code],
         .exited 1) := by
      rw [show fuel + 3 = (fuel + 2) + 1 from rfl, Api.runLoop]
      dsimp only []
      rw [hstep1]
      dsimp only []
      rw [show ([ApiTask.pushGet pb none] ++ [ApiTask.putResp p jsonA]) =
        [ApiTask.pushGet pb none, ApiTask.putResp p jsonA] from rfl]
      rw [hr2]
      rfl
    unfold Api.pushLoop
    dsimp only []
    rw [show ([p, pb].map (fun q => ApiTask.pushGet q none)) =
      [ApiTask.pushGet p none, ApiTask.pushGet pb none] from rfl]
    rw [hr3]
    rfl

/-- The first page of the C2 counterexample batch (its remote body differs). -/
def c2pageA : Page :=
  Page.build (str "c") none (str "pa") (str "NEW")
    { title := str "T", excerpt := str "E", hidden := false, next := none }

/-- The second page of the C2 counterexample batch. -/
def c2pageB : Page :=
  Page.build (str "c") none (str "pb") (str "B")
    { title := str "T", excerpt := str "E", hidden := false, next := none }

/-- The stale remote payload for the first page. -/
def c2payload : RemotePayload :=
  { idStr := str "i", slug := str "pa", title := str "T", excerpt := str "E",
    hidden := false, body := str "OLD", nextPages := [], nextDescription := [],
    lastUpdatedHash := [] }

/-- A stale remote payload for the second page. -/
def c2payloadB : RemotePayload :=
  { idStr := str "j", slug := str "pb", title := str "T", excerpt := str "E",
    hidden := false, body := str "OLD", nextPages := [], nextDescription := [],
    lastUpdatedHash := [] }

/-- A transport environment whose PUT on the first page fails with status 500. -/
def c2env : RemoteEnv :=
  { getFailure := fun _ => none,
    putFailure := fun s => if s = str "pa" then some 500 else none,
    postFailure := fun _ => none, categoryId := fun _ => [], assignId := fun _ => [] }

/-- A transport environment whose GET on the first page fails with status 500. -/
def c2envGet : RemoteEnv :=
  { getFailure := fun s => if s = str "pa" then some 500 else none,
    putFailure := fun _ => none,
    postFailure := fun _ => none, categoryId := fun _ => [], assignId := fun _ => [] }

/-- C2 counterexample.  First run: a 500 transport failure of the first document's
PUT terminates the entire process (`process.exit(1)` in the `.catch` handler of
`updatePage`): the second document's GET and even its PUT are issued beforehand
(the loop does not await), but its update is never confirmed — the outcome is
"exited 1" and no "updated" report for it ever happens, so the failure is not
page-isolated.  Second run: a 500 failure of the first document's GET is swallowed
by the bare `catch` — the run completes without any error report, refuting "the
failure is reported". -/
theorem claim_C2_counterexample :
    ((Api.pushLoop 4 c2env plainOpts [c2pageA, c2pageB] [c2pageA, c2pageB]
        [(str "pa", c2payload), (str "pb", c2payloadB)]).2.2 = .exited 1 ∧
      ApiEvent.getDoc (str "pb") ∈
        (Api.pushLoop 4 c2env plainOpts [c2pageA, c2pageB] [c2pageA, c2pageB]
          [(str "pa", c2payload), (str "pb", c2payloadB)]).2.1 ∧
      ApiEvent.logUpdated (str "pb") ∉
        (Api.pushLoop 4 c2env plainOpts [c2pageA, c2pageB] [c2pageA, c2pageB]
          [(str "pa", c2payload), (str "pb", c2payloadB)]).2.1) ∧
    (Api.pushLoop 4 c2envGet plainOpts [c2pageA, c2pageB] [c2pageA, c2pageB]
        [(str "pb", c2payloadB)] =
      ([(str "pb", storedAfterPut c2payloadB [c2pageA, c2pageB] c2pageB)],
       [.getDoc (str "pa"), .getDoc (str "pb"), .putDoc (str "pb"),
        .logUpdated (str "pb")], .ok)) := by
  refine ⟨⟨by decide, by decide, by decide⟩, by decide⟩

end PushTheorems

section PushWitnesses

/-- A remote payload for the second page whose content matches it (equal hash). -/
def c2payloadEq : RemotePayload :=
  { idStr := str "j", slug := str "pb", title := str "T", excerpt := str "E",
    hidden := false, body := str "B", nextPages := [], nextDescription := [],
    lastUpdatedHash := [] }

/-- Witness for C2 (amended) at concrete inputs: a failing GET drops one page
without affecting the rest of the run; a failing PUT exits the whole process after
the other page was already served. -/
theorem claim_C2_witness :
    (Api.pushLoop 4 c2envGet plainOpts [c2pageA, c2pageB] [c2pageA, c2pageB] [] =
      ((Api.pushLoop 3 c2envGet plainOpts [c2pageA, c2pageB] [c2pageB] []).1,
       .getDoc (str "pa") ::
         (Api.pushLoop 3 c2envGet plainOpts [c2pageA, c2pageB] [c2pageB] []).2.1,
       (Api.pushLoop 3 c2envGet plainOpts [c2pageA, c2pageB] [c2pageB] []).2.2)) ∧
    Api.pushLoop 3 c2env plainOpts [c2pageA, c2pageB] [c2pageA, c2pageB]
        [(str "pa", c2payload), (str "pb", c2payloadEq)] =
      ([(str "pa", c2payload), (str "pb", c2payloadEq)],
       [.getDoc (str "pa"), .getDoc (str "pb"), .putDoc (str "pa"),
        .logUnchanged (str "pb"), .logErrorMessage 500], .exited 1) :=
  ⟨(claim_C2 3 c2envGet plainOpts [c2pageA, c2pageB] [] c2pageA [c2pageB] 500).1
      (by decide) (by decide),
   (claim_C2 0 c2env plainOpts [c2pageA, c2pageB]
      [(str "pa", c2payload), (str "pb", c2payloadEq)] c2pageA [] 500).2
      c2pageB c2payload c2payloadEq rfl rfl (by decide) (by decide) (by decide)
      (by decide) (by decide) (by decide) (by decide)⟩

end PushWitnesses

section ParentOrderTheorems

/-- C7 (refuted by the code: a missing `await`).  `pushPage`'s 404 `catch` fires
`this.createPage(localPage)` WITHOUT `await`, so the `pushPage(parent)` promise —
and with it `ensurePageExists(parent)` — resolves right after the parent's
`loadCategory` GET is issued, long before the parent's create POST.  Pushing a
document `B` whose declared parent `A` exists locally but not remotely therefore
issues `B`'s parent re-load GET (trace index 4) BEFORE `A`'s create POST (trace
index 5); the re-load finds no document and its rejection is unhandled (nobody
awaits `createPage(B)`), so the process crashes: `B`'s create POST is never issued
at all — the claimed parent-first creation of `B` never happens. -/
theorem claim_C7 (fuel : Nat) (env : RemoteEnv) (opts : ApiOptions) (catalog : List Page)
    (docs : RemoteDocs) (lpB lpA : Page) (aslug : Str)
    (hpar : lpB.parent = some aslug)
    (hfind : catalog.find? (fun p => p.slug = aslug) = some lpA)
    (hApar : lpA.parent = none)
    (hgA : env.getFailure aslug = none)
    (hgB : env.getFailure lpB.slug = none)
    (hdA : lookupDoc docs aslug = none)
    (hdB : lookupDoc docs lpB.slug = none)
    (hdry : opts.dryRun = false)
    (hne : lpB.slug ≠ aslug) :
    Api.pushLoop (fuel + 5) env opts catalog [lpB] docs =
      (docs,
       [.getDoc lpB.slug, .getCategory lpB.category, .getDoc aslug,
        .getCategory lpA.category, .getDoc aslug, .postDoc aslug],
       .crashed) ∧
    ((Api.pushLoop (fuel + 5) env opts catalog [lpB] docs).2.1.get? 4 =
        some (.getDoc aslug) ∧
     (Api.pushLoop (fuel + 5) env opts catalog [lpB] docs).2.1.get? 5 =
        some (.postDoc aslug) ∧
     ApiEvent.postDoc lpB.slug ∉
        (Api.pushLoop (fuel + 5) env opts catalog [lpB] docs).2.1) := by
  have hAslug : lpA.slug = aslug := by
    have := List.find?_some hfind
    simpa using this
  have hstep1 : Api.processTask env opts catalog docs (ApiTask.pushGet lpB none) =
      (docs, [.getCategory lpB.category], [ApiTask.catResp lpB], none) := by
    unfold Api.processTask Api.resumeSteps
    simp [Api.loadPage, hgB, hdB]
  have hstep2 : Api.processTask env opts catalog docs (ApiTask.catResp lpB) =
      (docs, [.getDoc aslug], [ApiTask.pushGet lpA (some lpB)], none) := by
    unfold Api.processTask
    simp [hpar, hfind, hAslug]
  have hstep3 : Api.processTask env opts catalog docs (ApiTask.pushGet lpA (some lpB)) =
      (docs, [.getCategory lpA.category, .getDoc aslug],
       [ApiTask.catResp lpA, ApiTask.parentGet lpB aslug], none) := by
    unfold Api.processTask Api.resumeSteps
    simp [Api.loadPage, hAslug, hgA, hdA, hpar]
  have hstep4 : Api.processTask env opts catalog docs (ApiTask.catResp lpA) =
      (docs, [.postDoc aslug], [ApiTask.postResp lpA], none) := by
    unfold Api.processTask
    simp [hApar, hdry, hAslug]
  have hstep5 : Api.processTask env opts catalog docs (ApiTask.parentGet lpB aslug) =
      (docs, [], [], some .crashed) := by
    unfold Api.processTask
    simp [Api.loadPage, hgA, hdA]
  have hr1 : Api.runLoop (fuel + 1) env opts catalog docs
      [ApiTask.parentGet lpB aslug, ApiTask.postResp lpA] = (docs, [], .crashed) := by
    rw [Api.runLoop]
    dsimp only []
    rw [hstep5]
  have hr2 : Api.runLoop (fuel + 2) env opts catalog docs
      [ApiTask.catResp lpA, ApiTask.parentGet lpB aslug] =
      (docs, [.postDoc aslug], .crashed) := by
    rw [show fuel + 2 = (fuel + 1) + 1 from rfl, Api.runLoop]
    dsimp only []
    rw [hstep4]
    dsimp only []
    rw [show ([ApiTask.parentGet lpB aslug] ++ [ApiTask.postResp lpA]) =
      [ApiTask.parentGet lpB aslug, ApiTask.postResp lpA] from rfl]
    rw [hr1]
    rfl
  have hr3 : Api.runLoop (fuel + 3) env opts catalog docs
      [ApiTask.pushGet lpA (some lpB)] =
      (docs, [.getCategory lpA.category, .getDoc aslug, .postDoc aslug], .crashed) := by
    rw [show fuel + 3 = (fuel + 2) + 1 from rfl, Api.runLoop]
    dsimp only []
    rw [hstep3]
    dsimp only []
    rw [show (([] : List ApiTask) ++ [ApiTask.catResp lpA, ApiTask.parentGet lpB aslug]) =
      [ApiTask.catResp lpA, ApiTask.parentGet lpB aslug] from rfl]
    rw [hr2]
    rfl
  have hr4 : Api.runLoop (fuel + 4) env opts catalog docs [ApiTask.catResp lpB] =
      (docs, [.getDoc aslug, .getCategory lpA.category, .getDoc aslug, .postDoc aslug],
       .crashed) := by
    rw [show fuel + 4 = (fuel + 3) + 1 from rfl, Api.runLoop]
    dsimp only []
    rw [hstep2]
    dsimp only []
    rw [show (([] : List ApiTask) ++ [ApiTask.pushGet lpA (some lpB)]) =
      [ApiTask.pushGet lpA (some lpB)] from rfl]
    rw [hr3]
    rfl
  have hmain : Api.pushLoop (fuel + 5) env opts catalog [lpB] docs =
      (docs,
       [.getDoc lpB.slug, .getCategory lpB.category, .getDoc aslug,
        .getCategory lpA.category, .getDoc aslug, .postDoc aslug],
       .crashed) := by
    unfold Api.pushLoop
    dsimp only []
    rw [show ([lpB].map (fun q => ApiTask.pushGet q none)) = [ApiTask.pushGet lpB none]
      from rfl]
    rw [show fuel + 5 = (fuel + 4) + 1 from rfl, Api.runLoop]
    dsimp only []
    rw [hstep1]
    dsimp only []
    rw [show (([] : List ApiTask) ++ [ApiTask.catResp lpB]) = [ApiTask.catResp lpB]
      from rfl]
    rw [hr4]
    rfl
  refine ⟨hmain, ?_, ?_, ?_⟩
  · rw [hmain]
    rfl
  · rw [hmain]
    rfl
  · rw [hmain]
    simp [hne]

end ParentOrderTheorems

section ParentOrderWitness

/-- The parent page of the C7 witness. -/
def c7pageA : Page :=
  Page.build (str "cat") none (str "pa7") (str "A")
    { title := str "TA", excerpt := str "EA", hidden := false, next := none }

/-- The child page of the C7 witness, declaring `pa7` as its parent. -/
def c7pageB : Page :=
  Page.build (str "cat") (some (str "pa7")) (str "pb7") (str "B")
    { title := str "TB", excerpt := str "EB", hidden := false, next := none }

/-- Witness for C7 at concrete inputs: pushing the child with both pages absent
remotely issues the parent re-load (index 4) before the parent's POST (index 5),
crashes, and never issues the child's POST. -/
theorem claim_C7_witness :
    Api.pushLoop 5 c6env plainOpts [c7pageA, c7pageB] [c7pageB] [] =
      ([],
       [.getDoc (str "pb7"), .getCategory (str "cat"), .getDoc (str "pa7"),
        .getCategory (str "cat"), .getDoc (str "pa7"), .postDoc (str "pa7")],
       .crashed) :=
  (claim_C7 0 c6env plainOpts [c7pageA, c7pageB] [] c7pageB c7pageA (str "pa7")
    rfl (by decide) rfl rfl rfl rfl rfl rfl (by decide)).1

end ParentOrderWitness

section RenderModel

/-- An abstract canonical link occurrence: image marker, label, href, optional
title.  Its rendering is the canonical markdown form that `Link.markdown` also
produces. -/
structure LinkSpec where
  bang : Bool
  label : Str
  href : Str
  title : Option Str
deriving DecidableEq, Repr

/-- The canonical title segment ` "title"`. -/
def titlePartOf : Option Str → Str
  | some t => ' ' :: '"' :: (t ++ ['"'])
  | none => []

/-- The canonical markdown rendering of a link occurrence. -/
def renderLinkSpec (l : LinkSpec) : Str :=
  (if l.bang then ['!'] else []) ++
    '[' :: (l.label ++ str "](" ++ (l.href ++ titlePartOf l.title ++ [')']))

/-- Plain-text segments between links: no `[` (no match can start inside) and no `!`
(no image marker can attach to a following link). -/
def segCleanB (s : Str) : Bool := s.all (fun c => c ≠ '[' && c ≠ '!')

/-- Clean labels: no `]` (the label's closing bracket is unambiguous) and no line
terminator. -/
def labelCleanB (s : Str) : Bool := s.all (fun c => c ≠ ']' && dotChar c)

/-- Clean hrefs for parsing: nonempty, no space, parenthesis, angle bracket, quote,
or line terminator. -/
def hrefCleanB (s : Str) : Bool :=
  !s.isEmpty && s.all (fun c =>
    c ≠ ' ' && c ≠ '(' && c ≠ ')' && c ≠ '<' && c ≠ '>' && c ≠ '"' && c ≠ squote &&
      dotChar c)

/-- Clean titles: absent, or nonempty (a present-but-empty title is falsy and would
not be re-rendered) without quote, closing parenthesis or line terminator. -/
def titleCleanB : Option Str → Bool
  | none => true
  | some t =>
    !t.isEmpty && t.all (fun c => c ≠ '"' && c ≠ squote && c ≠ ')' && dotChar c)

/-- A link occurrence all of whose parts are clean. -/
def linkCleanB (l : LinkSpec) : Bool :=
  labelCleanB l.label && hrefCleanB l.href && titleCleanB l.title

/-- A document tail shape: an alternating list of link occurrences and the plain
segments that follow them. -/
def itemsCleanB (items : List (LinkSpec × Str)) : Bool :=
  items.all (fun it => linkCleanB it.1 && segCleanB it.2)

/-- Rendering of the link/segment alternation. -/
def renderItems : List (LinkSpec × Str) → Str
  | [] => []
  | (l, seg) :: rest => renderLinkSpec l ++ (seg ++ renderItems rest)

end RenderModel

section ScanLemmas

/-- A clean label scans to itself, stopping exactly at its `](`. -/
theorem scanLabel_render (label : Str) (h : labelCleanB label = true) (rest : Str) :
    scanLabel (label ++ ']' :: '(' :: rest) = some (label, rest) := by
  induction label with
  | nil => rfl
  | cons c t ih =>
    have hparts : (c ≠ ']' ∧ dotChar c = true) ∧ labelCleanB t = true := by
      simpa [labelCleanB] using h
    rw [List.cons_append, scanLabel.eq_def]
    split
    · rename_i t1 heq
      exact absurd (List.cons.inj heq).1 hparts.1.1
    · rename_i c1 t1 hno heq
      obtain ⟨h1, h2⟩ := List.cons.inj heq
      subst h1
      rw [← h2, ih hparts.2, hparts.1.2]
      rfl
    · rename_i heq
      exact absurd heq (by simp)

/-- `dropSpaces` leaves a string whose head is not a space unchanged. -/
theorem dropSpaces_of_ne (c : Char) (t : Str) (h : c ≠ ' ') :
    dropSpaces (c :: t) = c :: t := by
  rw [dropSpaces.eq_def]
  split
  · rename_i t1 heq
    exact absurd (List.cons.inj heq).1 h
  · rfl

/-- The regex tail cannot match at a position holding an ordinary href character. -/
theorem matchTail_none_of_head (c : Char) (t : Str)
    (h : c ≠ ' ' ∧ c ≠ '(' ∧ c ≠ ')' ∧ c ≠ '>' ∧ c ≠ '"' ∧ c ≠ squote) :
    matchTail (c :: t) = none := by
  obtain ⟨h1, h2, h3, h4, h5, h6⟩ := h
  have hdrop : dropSpaces (c :: t) = c :: t := dropSpaces_of_ne c t h1
  have htitle : tryTitleGroup (c :: t) = none := by
    unfold tryTitleGroup
    rw [hdrop]
    simp [h2, h5, h6]
  have hclose : closeParen (c :: t) = none := by
    unfold closeParen
    rw [hdrop]
    split
    · rename_i t1 heq
      exact absurd (List.cons.inj heq).1 h3
    · rfl
  rw [matchTail.eq_def]
  split
  · rename_i t1 heq
    exact absurd (List.cons.inj heq).1 h4
  · simp only [htitle, hclose]

end ScanLemmas

section ScanLemmasTwo

/-- Closing directly at a parenthesis. -/
theorem closeParen_paren (rest : Str) : closeParen (')' :: rest) = some rest := rfl

/-- `dropSpaces` consumes a leading space. -/
theorem dropSpaces_space (t : Str) : dropSpaces (' ' :: t) = dropSpaces t := rfl

/-- The `>?` step is vacuous when the position does not hold `>`. -/
theorem matchTail_of_ne_gt (c : Char) (t : Str) (hc : c ≠ '>') :
    matchTail (c :: t) =
      (match tryTitleGroup (c :: t) with
       | some (ti, rest) => some (some ti, rest)
       | none =>
         match closeParen (c :: t) with
         | some rest => some (none, rest)
         | none => none) := by
  rw [matchTail.eq_def]
  split
  · rename_i t1 heq
    exact absurd (List.cons.inj heq).1 hc
  · rfl

/-- A clean title scans to itself, closing at its quote and the following `)`. -/
theorem scanTitle_render (t : Str)
    (h : t.all (fun c => c ≠ '"' && c ≠ squote && c ≠ ')' && dotChar c) = true)
    (rest : Str) : scanTitle (t ++ '"' :: ')' :: rest) = some (t, rest) := by
  induction t with
  | nil => rfl
  | cons c t' ih =>
    have hall : (c ≠ '"' ∧ c ≠ squote ∧ c ≠ ')' ∧ dotChar c = true) ∧
        t'.all (fun c => c ≠ '"' && c ≠ squote && c ≠ ')' && dotChar c) = true := by
      simpa [and_assoc] using h
    obtain ⟨⟨hq, hsq, hp, hdot⟩, ht⟩ := hall
    rw [List.cons_append, scanTitle]
    rw [if_neg (by simp [hq, hsq, hp])]
    show (if dotChar c = true then
        (scanTitle (t' ++ '"' :: ')' :: rest)).map (fun p => (c :: p.1, p.2))
      else none) = _
    rw [if_pos hdot, ih ht]
    rfl

/-- The regex tail matches the canonical title segment (or its absence) followed by
the closing parenthesis, capturing exactly the title. -/
theorem matchTail_titlePart (ti : Option Str) (hti : titleCleanB ti = true)
    (rest : Str) : matchTail (titlePartOf ti ++ ')' :: rest) = some (ti, rest) := by
  rcases ti with _ | t
  · rfl
  · simp only [titleCleanB, Bool.and_eq_true] at hti
    have hgrp : tryTitleGroup (' ' :: ('"' :: (t ++ ['"']) ++ ')' :: rest)) =
        some (t, rest) := by
      unfold tryTitleGroup
      rw [dropSpaces_space, List.cons_append,
        dropSpaces_of_ne '"' _ (by decide)]
      show (if ('"' == '"' || '"' == squote || '"' == '(') = true
          then scanTitle (t ++ ['"'] ++ ')' :: rest) else none) = some (t, rest)
      have hassoc : (t ++ ['"']) ++ ')' :: rest = t ++ '"' :: ')' :: rest := by
        simp [List.append_assoc]
      rw [if_pos (by decide), hassoc, scanTitle_render t hti.2 rest]
    show matchTail (' ' :: ('"' :: (t ++ ['"']) ++ ')' :: rest)) = some (some t, rest)
    rw [matchTail_of_ne_gt ' ' _ (by decide), hgrp]

/-- A clean href scans to itself: the lazy href loop fails at every inner position
and stops exactly where the canonical tail begins. -/
theorem scanHref_render (href : Str)
    (h : href.all (fun c =>
      c ≠ ' ' && c ≠ '(' && c ≠ ')' && c ≠ '<' && c ≠ '>' && c ≠ '"' && c ≠ squote &&
        dotChar c) = true)
    (ti : Option Str) (hti : titleCleanB ti = true) (rest : Str) :
    scanHref (href ++ (titlePartOf ti ++ ')' :: rest)) = some (href, ti, rest) := by
  induction href with
  | nil =>
    rw [List.nil_append]
    have hm := matchTail_titlePart ti hti rest
    rcases hx : titlePartOf ti ++ ')' :: rest with _ | ⟨c, t⟩
    · exact absurd hx (by rcases ti with _ | t <;> simp [titlePartOf])
    · rw [hx] at hm
      rw [scanHref, hm]
  | cons c t' ih =>
    have hall : (c ≠ ' ' ∧ c ≠ '(' ∧ c ≠ ')' ∧ c ≠ '<' ∧ c ≠ '>' ∧ c ≠ '"' ∧
        c ≠ squote ∧ dotChar c = true) ∧
        t'.all (fun c =>
          c ≠ ' ' && c ≠ '(' && c ≠ ')' && c ≠ '<' && c ≠ '>' && c ≠ '"' &&
            c ≠ squote && dotChar c) = true := by
      simpa [and_assoc] using h
    obtain ⟨⟨h1, h2, h3, h4, h5, h6, h7, h8⟩, ht⟩ := hall
    rw [List.cons_append, scanHref,
      matchTail_none_of_head c _ ⟨h1, h2, h3, h5, h6, h7⟩]
    show (if dotChar c = true then
        (scanHref (t' ++ (titlePartOf ti ++ ')' :: rest))).map
          (fun p => (c :: p.1, p.2.1, p.2.2))
      else none) = _
    rw [if_pos h8, ih ht]
    rfl

end ScanLemmasTwo

section MatchRenderLemmas

/-- A clean href after the bracket: no space run, no angle bracket, the href scans
to itself. -/
theorem scanAfterBracket_render (href : Str) (h : hrefCleanB href = true)
    (ti : Option Str) (hti : titleCleanB ti = true) (rest : Str) :
    scanAfterBracket (href ++ (titlePartOf ti ++ ')' :: rest)) = some (href, ti, rest) := by
  obtain ⟨hne, hchars⟩ : (!href.isEmpty) = true ∧ href.all (fun c =>
      c ≠ ' ' && c ≠ '(' && c ≠ ')' && c ≠ '<' && c ≠ '>' && c ≠ '"' && c ≠ squote &&
        dotChar c) = true := by
    simpa [hrefCleanB] using h
  rcases href with _ | ⟨c, t⟩
  · simp at hne
  · have hhead : (c ≠ ' ' ∧ c ≠ '(' ∧ c ≠ ')' ∧ c ≠ '<' ∧ c ≠ '>' ∧ c ≠ '"' ∧
        c ≠ squote ∧ dotChar c = true) := by
      have := (by simpa [and_assoc] using hchars :
        (c ≠ ' ' ∧ c ≠ '(' ∧ c ≠ ')' ∧ c ≠ '<' ∧ c ≠ '>' ∧ c ≠ '"' ∧
          c ≠ squote ∧ dotChar c = true) ∧ _)
      exact this.1
    unfold scanAfterBracket
    rw [List.cons_append, dropSpaces_of_ne c _ hhead.1]
    dsimp only []
    split
    · rename_i t1 heq
      exact absurd (List.cons.inj heq).1 hhead.2.2.2.1
    · rw [← List.cons_append]
      exact scanHref_render (c :: t) hchars ti hti rest

/-- The expansion of the two-character literal `](`. -/
theorem str_bracket_paren : str "](" = ']' :: '(' :: [] := rfl

/-- The regex matches a canonical clean link rendering at its start, whatever
follows, capturing exactly its label, href and title, with the rendering itself as
the matched text. -/
theorem matchAt_render (l : LinkSpec) (hc : linkCleanB l = true) (after : Str) :
    matchAt (renderLinkSpec l ++ after) =
      some { text := renderLinkSpec l, label := l.label, href := l.href,
             title := l.title } := by
  obtain ⟨hlab, hhref, hti⟩ : labelCleanB l.label = true ∧ hrefCleanB l.href = true ∧
      titleCleanB l.title = true := by
    simpa [linkCleanB, and_assoc] using hc
  have hlabel := scanLabel_render l.label hlab
    (l.href ++ (titlePartOf l.title ++ ')' :: after))
  have hbr := scanAfterBracket_render l.href hhref l.title hti after
  rcases hbang : l.bang with _ | _
  · have hs : renderLinkSpec l ++ after =
        '[' :: (l.label ++ (']' :: '(' :: (l.href ++ (titlePartOf l.title ++ ')' :: after)))) := by
      simp [renderLinkSpec, hbang, str_bracket_paren, List.append_assoc]
    rw [hs, matchAt]
    dsimp only []
    rw [hlabel]
    dsimp only []
    rw [hbr]
    dsimp only []
    have hlen : ('[' :: (l.label ++ (']' :: '(' ::
        (l.href ++ (titlePartOf l.title ++ ')' :: after))))).length - after.length =
        (renderLinkSpec l).length := by
      have h1 := congrArg List.length hs
      simp only [List.length_append] at h1
      omega
    rw [hlen, ← hs, List.take_left]
  · have hs : renderLinkSpec l ++ after =
        '!' :: '[' :: (l.label ++ (']' :: '(' :: (l.href ++ (titlePartOf l.title ++ ')' :: after)))) := by
      simp [renderLinkSpec, hbang, str_bracket_paren, List.append_assoc]
    rw [hs, matchAt]
    dsimp only []
    rw [hlabel]
    dsimp only []
    rw [hbr]
    dsimp only []
    have hlen : ('!' :: '[' :: (l.label ++ (']' :: '(' ::
        (l.href ++ (titlePartOf l.title ++ ')' :: after))))).length - after.length =
        (renderLinkSpec l).length := by
      have h1 := congrArg List.length hs
      simp only [List.length_append] at h1
      omega
    rw [hlen, ← hs, List.take_left]

end MatchRenderLemmas

section ShapeScanLemmas

/-- No match can start at a character other than `!` or `[`. -/
theorem matchAt_none_of_clean (c : Char) (t : Str) (h1 : c ≠ '[') (h2 : c ≠ '!') :
    matchAt (c :: t) = none := by
  rw [matchAt.eq_def]
  split
  · rename_i t1 heq
    exact absurd (List.cons.inj heq).1 h2
  · rename_i t1 heq
    exact absurd (List.cons.inj heq).1 h1
  · rfl

/-- The exec scan skips a clean segment completely. -/
theorem nextMatch_skip (seg : Str) (hseg : segCleanB seg = true) (rest : Str) :
    ∀ i : Nat, nextMatch (seg ++ rest) i = nextMatch rest (i + seg.length) := by
  induction seg with
  | nil => intro i; simp
  | cons c t ih =>
    intro i
    have hc : (c ≠ '[' ∧ c ≠ '!') ∧ segCleanB t = true := by
      simpa [segCleanB] using hseg
    rw [List.cons_append, nextMatch, matchAt_none_of_clean c _ hc.1.1 hc.1.2]
    dsimp only []
    rw [ih hc.2 (i + 1)]
    congr 1
    simp only [List.length_cons]
    omega

/-- The exec scan fires exactly at the start of a canonical clean link rendering. -/
theorem nextMatch_render (l : LinkSpec) (hc : linkCleanB l = true) (after : Str)
    (i : Nat) :
    nextMatch (renderLinkSpec l ++ after) i =
      some (i, { text := renderLinkSpec l, label := l.label, href := l.href,
                 title := l.title }, after) := by
  have hm := matchAt_render l hc after
  rcases hx : renderLinkSpec l ++ after with _ | ⟨c, t⟩
  · exact absurd hx (by rcases hb : l.bang <;> simp [renderLinkSpec, hb])
  · rw [hx] at hm
    rw [nextMatch, hm]
    dsimp only []
    rw [← hx, List.drop_left]

/-- The links of a rendered shape, with their absolute positions, as `findAll` must
produce them. -/
def shapeLinksFrom (pos : Nat) : List (LinkSpec × Str) → List Link
  | [] => []
  | (l, seg) :: rest =>
    mkLink (classifySpec (renderLinkSpec l) l.href)
        { text := renderLinkSpec l, label := l.label, href := l.href, title := l.title }
        pos ::
      shapeLinksFrom (pos + (renderLinkSpec l).length + seg.length) rest

/-- A rendered link is nonempty, so a rendered item list is at least as long as the
item count. -/
theorem renderItems_length_ge (items : List (LinkSpec × Str)) :
    items.length ≤ (renderItems items).length := by
  induction items with
  | nil => simp [renderItems]
  | cons it rest ih =>
    obtain ⟨l, seg⟩ := it
    have hr : 1 ≤ (renderLinkSpec l).length := by
      rcases hb : l.bang <;> simp [renderLinkSpec, hb]
    simp only [renderItems, List.length_cons, List.length_append]
    omega

/-- The findAll loop on a rendered clean shape: it collects exactly the shape's
links at their rendered positions and drops nothing. -/
theorem findAllAux_render (items : List (LinkSpec × Str)) :
    ∀ (fuel : Nat) (head : Str) (i : Nat), items.length < fuel →
      segCleanB head = true → itemsCleanB items = true →
      findAllAux fuel (head ++ renderItems items) i =
        (shapeLinksFrom (i + head.length) items, []) := by
  induction items with
  | nil =>
    intro fuel head i hfuel hhead _
    rcases fuel with _ | fuel
    · omega
    · unfold findAllAux
      rw [show renderItems [] = [] from rfl, nextMatch_skip head hhead [] i]
      rw [show nextMatch [] (i + head.length) = none from rfl]
      rfl
  | cons it rest ih =>
    intro fuel head i hfuel hhead hitems
    obtain ⟨l, seg⟩ := it
    have hparts : (linkCleanB l = true ∧ segCleanB seg = true) ∧
        itemsCleanB rest = true := by
      simpa [itemsCleanB] using hitems
    rcases fuel with _ | fuel
    · omega
    unfold findAllAux
    rw [show renderItems ((l, seg) :: rest) = renderLinkSpec l ++ (seg ++ renderItems rest)
        from rfl]
    rw [nextMatch_skip head hhead _ i,
      nextMatch_render l hparts.1.1 (seg ++ renderItems rest) (i + head.length)]
    dsimp only []
    rw [chooseLinkClass_eq_spec]
    dsimp only []
    rw [ih fuel seg (i + head.length + (renderLinkSpec l).length)
      (by simpa using Nat.lt_of_succ_lt_succ hfuel) hparts.1.2 hparts.2]
    rfl

/-- `Link.findAll` on a rendered clean shape yields exactly the shape's links. -/
theorem findAll_render (head : Str) (items : List (LinkSpec × Str))
    (hhead : segCleanB head = true) (hitems : itemsCleanB items = true) :
    Link.findAll (head ++ renderItems items) = shapeLinksFrom head.length items := by
  unfold Link.findAll Link.findAllD
  rw [findAllAux_render items ((head ++ renderItems items).length + 1) head 0
    (by have := renderItems_length_ge items; simp [List.length_append]; omega)
    hhead hitems]
  simp

end ShapeScanLemmas

section SortLemmas

/-- Inserting an element whose position is below every element of the list appends
it at the end. -/
theorem insertByPosDesc_append (x : Link × Link) :
    ∀ (l : List (Link × Link)), (∀ y ∈ l, x.1.positionIndex < y.1.positionIndex) →
      insertByPosDesc x l = l ++ [x] := by
  intro l
  induction l with
  | nil => intro; rfl
  | cons y u ih =>
    intro hall
    rw [insertByPosDesc, if_neg (by
      have := hall y (by simp)
      omega)]
    rw [ih (fun z hz => hall z (by simp [hz]))]
    rfl

/-- The stable descending sort of a strictly ascending replacement batch is its
reversal. -/
theorem sortByPosDesc_of_ascending (rs : List (Link × Link))
    (h : List.Pairwise (fun a b => a.1.positionIndex < b.1.positionIndex) rs) :
    sortByPosDesc rs = rs.reverse := by
  induction rs with
  | nil => rfl
  | cons x t ih =>
    obtain ⟨hx, ht⟩ := List.pairwise_cons.mp h
    rw [show sortByPosDesc (x :: t) = insertByPosDesc x (sortByPosDesc t) from rfl,
      ih ht, insertByPosDesc_append x t.reverse (fun y hy => hx y (by simpa using hy)),
      List.reverse_cons]

/-- Every link of a rendered shape sits at or after the base position. -/
theorem shapeLinksFrom_lower : ∀ (items : List (LinkSpec × Str)) (pos : Nat),
    ∀ l ∈ shapeLinksFrom pos items, pos ≤ l.positionIndex := by
  intro items
  induction items with
  | nil => intro pos l hl; simp [shapeLinksFrom] at hl
  | cons it rest ih =>
    intro pos l hl
    obtain ⟨lk, seg⟩ := it
    rw [shapeLinksFrom] at hl
    rcases List.mem_cons.mp hl with h | h
    · subst h; exact Nat.le_refl _
    · have := ih _ l h
      omega

/-- The links of a rendered shape have strictly ascending positions. -/
theorem shapeLinksFrom_pairwise : ∀ (items : List (LinkSpec × Str)) (pos : Nat),
    List.Pairwise (fun a b : Link => a.positionIndex < b.positionIndex)
      (shapeLinksFrom pos items) := by
  intro items
  induction items with
  | nil => intro pos; simp [shapeLinksFrom]
  | cons it rest ih =>
    intro pos
    obtain ⟨lk, seg⟩ := it
    rw [shapeLinksFrom]
    refine List.pairwise_cons.mpr ⟨?_, ih _⟩
    intro l hl
    have hlow := shapeLinksFrom_lower rest _ l hl
    have hr : 1 ≤ (renderLinkSpec lk).length := by
      rcases hb : lk.bang <;> simp [renderLinkSpec, hb]
    show (mkLink _ _ pos).positionIndex < l.positionIndex
    rw [show (mkLink (classifySpec (renderLinkSpec lk) lk.href)
      { text := renderLinkSpec lk, label := lk.label, href := lk.href,
        title := lk.title } pos).positionIndex = pos from rfl]
    omega

end SortLemmas

section MarkdownCopyLemmas

/-- The classifier yields `Image` exactly for texts with the leading marker. -/
theorem classifySpec_image_iff (t h : Str) :
    classifySpec t h = .image ↔ t.head? = some '!' := by
  unfold classifySpec
  split_ifs with h1 h2 h3 <;> simp [h1]

/-- The canonical rendering starts with `!` exactly for image specs. -/
theorem renderLinkSpec_head (l : LinkSpec) :
    (renderLinkSpec l).head? = some '!' ↔ l.bang = true := by
  rcases hb : l.bang <;> simp [renderLinkSpec, hb]

/-- The markdown of a shape link whose href was replaced is the canonical rendering
of the rewritten spec (the tag keeps the image marker, the clean title keeps its
quoted segment). -/
theorem markdown_copy (l : LinkSpec) (hc : linkCleanB l = true) (pos : Nat)
    (h2 : Str) :
    ((mkLink (classifySpec (renderLinkSpec l) l.href)
        { text := renderLinkSpec l, label := l.label, href := l.href,
          title := l.title } pos).copyWithHref h2).markdown =
      renderLinkSpec { l with href := h2 } := by
  have htitle : titleCleanB l.title = true := by
    have : labelCleanB l.label = true ∧ hrefCleanB l.href = true ∧
        titleCleanB l.title = true := by simpa [linkCleanB, and_assoc] using hc
    exact this.2.2
  have htp : (match l.title with
      | some t => if t.isEmpty then ([] : Str) else ' ' :: '"' :: (t ++ ['"'])
      | none => []) = titlePartOf l.title := by
    rcases hti : l.title with _ | t
    · rfl
    · rw [hti] at htitle
      have hne : t.isEmpty = false := by
        rcases hx : t.isEmpty
        · rfl
        · rcases t with _ | ⟨c, u⟩
          · simp [titleCleanB] at htitle
          · simp at hx
      simp [titlePartOf, hne]
  unfold Link.copyWithHref mkLink Link.markdown
  dsimp only []
  rw [htp]
  rcases hb : l.bang
  · have himg : classifySpec (renderLinkSpec l) l.href ≠ .image := by
      rw [Ne, classifySpec_image_iff, renderLinkSpec_head, hb]
      simp
    rcases htag : classifySpec (renderLinkSpec l) l.href
    · simp [renderLinkSpec, hb, str_bracket_paren, List.append_assoc]
    · simp [renderLinkSpec, hb, str_bracket_paren, List.append_assoc]
    · simp [renderLinkSpec, hb, str_bracket_paren, List.append_assoc]
    · exact absurd htag himg
  · have himg : classifySpec (renderLinkSpec l) l.href = .image := by
      rw [classifySpec_image_iff, renderLinkSpec_head, hb]
    rw [himg]
    simp [renderLinkSpec, hb, str_bracket_paren, List.append_assoc]

end MarkdownCopyLemmas

section SpliceLemmas

/-- The rewrite of a shape by a link-level selection `Q` and href-update `g`, as the
replacement fold realizes it on the rendered string. -/
def rewriteItemsL (Q : Link → Bool) (g : Link → Str) (pos : Nat) :
    List (LinkSpec × Str) → List (LinkSpec × Str)
  | [] => []
  | (l, seg) :: rest =>
    let link := mkLink (classifySpec (renderLinkSpec l) l.href)
      { text := renderLinkSpec l, label := l.label, href := l.href, title := l.title }
      pos
    ((if Q link then { l with href := g link } else l), seg) ::
      rewriteItemsL Q g (pos + (renderLinkSpec l).length + seg.length) rest

/-- Folding the replacement step from the highest position downwards over the
selected links of a rendered shape produces the rendering of the rewritten shape. -/
theorem foldr_splice (Q : Link → Bool) (g : Link → Str) :
    ∀ (items : List (LinkSpec × Str)) (head : Str), itemsCleanB items = true →
      List.foldr (fun r acc => r.1.replace acc r.2.markdown)
        (head ++ renderItems items)
        (((shapeLinksFrom head.length items).filter Q).map
          (fun l => (l, l.copyWithHref (g l)))) =
      head ++ renderItems (rewriteItemsL Q g head.length items) := by
  intro items
  induction items with
  | nil => intro head _; rfl
  | cons it rest ih =>
    intro head hclean
    obtain ⟨l, seg⟩ := it
    have hparts : (linkCleanB l = true ∧ segCleanB seg = true) ∧
        itemsCleanB rest = true := by
      simpa [itemsCleanB] using hclean
    have hlen : (head ++ renderLinkSpec l ++ seg).length =
        head.length + (renderLinkSpec l).length + seg.length := by
      simp only [List.length_append]
    have hstr : head ++ renderItems ((l, seg) :: rest) =
        (head ++ renderLinkSpec l ++ seg) ++ renderItems rest := by
      simp [renderItems, List.append_assoc]
    have hshape : shapeLinksFrom head.length ((l, seg) :: rest) =
        mkLink (classifySpec (renderLinkSpec l) l.href)
          { text := renderLinkSpec l, label := l.label, href := l.href,
            title := l.title } head.length ::
          shapeLinksFrom ((head ++ renderLinkSpec l ++ seg).length) rest := by
      rw [hlen]; rfl
    have hrw : rewriteItemsL Q g head.length ((l, seg) :: rest) =
        ((if Q (mkLink (classifySpec (renderLinkSpec l) l.href)
            { text := renderLinkSpec l, label := l.label, href := l.href,
              title := l.title } head.length) then
            { l with href := g (mkLink (classifySpec (renderLinkSpec l) l.href)
              { text := renderLinkSpec l, label := l.label, href := l.href,
                title := l.title } head.length) }
          else l), seg) ::
          rewriteItemsL Q g ((head ++ renderLinkSpec l ++ seg).length) rest := by
      rw [hlen]; rfl
    rw [hstr, hshape, hrw]
    rcases hq : Q (mkLink (classifySpec (renderLinkSpec l) l.href)
        { text := renderLinkSpec l, label := l.label, href := l.href,
          title := l.title } head.length)
    · rw [List.filter_cons_of_neg (by simp [hq])]
      rw [ih (head ++ renderLinkSpec l ++ seg) hparts.2]
      rw [if_neg (by simp [hq])]
      simp [renderItems, List.append_assoc]
    · rw [List.filter_cons_of_pos (by simp [hq])]
      rw [List.map_cons, List.foldr_cons]
      rw [ih (head ++ renderLinkSpec l ++ seg) hparts.2]
      dsimp only []
      rw [markdown_copy l hparts.1.1 head.length _]
      rw [if_pos rfl]
      unfold Link.replace
      rw [show (mkLink (classifySpec (renderLinkSpec l) l.href)
        { text := renderLinkSpec l, label := l.label, href := l.href,
          title := l.title } head.length).positionIndex = head.length from rfl]
      rw [show (mkLink (classifySpec (renderLinkSpec l) l.href)
        { text := renderLinkSpec l, label := l.label, href := l.href,
          title := l.title } head.length).text = renderLinkSpec l from rfl]
      have hS : (head ++ renderLinkSpec l ++ seg) ++
          renderItems (rewriteItemsL Q g ((head ++ renderLinkSpec l ++ seg).length) rest) =
          head ++ (renderLinkSpec l ++ (seg ++
            renderItems (rewriteItemsL Q g ((head ++ renderLinkSpec l ++ seg).length) rest))) := by
        simp [List.append_assoc]
      rw [hS, List.take_left]
      have hdrop : (head ++ (renderLinkSpec l ++ (seg ++
          renderItems (rewriteItemsL Q g ((head ++ renderLinkSpec l ++ seg).length) rest)))).drop
            (head.length + (renderLinkSpec l).length) = seg ++
          renderItems (rewriteItemsL Q g ((head ++ renderLinkSpec l ++ seg).length) rest) := by
        rw [← List.append_assoc]
        rw [show head.length + (renderLinkSpec l).length =
          (head ++ renderLinkSpec l).length by simp]
        exact List.drop_left _ _
      rw [hdrop]
      simp [renderItems, List.append_assoc]

end SpliceLemmas

section PathLemmas

/-- A plain path segment: nonempty and neither `.` nor `..` (the only segment shapes
`normSegStep` treats specially). -/
def plainSegB (seg : Str) : Bool :=
  !seg.isEmpty && !(seg == ['.']) && !(seg == str "..")

/-- A plain relative path: every `/`-separated segment is plain. -/
def plainRelB (s : Str) : Bool := (splitSegs s).all plainSegB

/-- A character split always yields at least one part. -/
theorem splitOnChar_ne_nil (c : Char) (s : Str) : splitOnChar c s ≠ [] := by
  induction s with
  | nil => simp [splitOnChar]
  | cons x t ih =>
    rw [splitOnChar]
    rcases hx : (x == c) with _ | _
    · rw [if_neg (by simp [hx])]
      rcases hr : splitOnChar c t with _ | ⟨r, rs⟩
      · exact absurd hr ih
      · simp
    · rw [if_pos (by simp [hx])]
      simp

/-- Splitting distributes over an occurrence of the separator. -/
theorem splitOnChar_append (c : Char) (a b : Str) :
    splitOnChar c (a ++ c :: b) = splitOnChar c a ++ splitOnChar c b := by
  induction a with
  | nil => simp [splitOnChar]
  | cons x t ih =>
    rw [List.cons_append, splitOnChar, splitOnChar]
    rcases hx : (x == c) with _ | _
    · rw [if_neg (by simp [hx]), if_neg (by simp [hx]), ih]
      rcases hr : splitOnChar c t with _ | ⟨r, rs⟩
      · exact absurd hr (splitOnChar_ne_nil c t)
      · simp [hr]
    · rw [if_pos (by simp [hx]), if_pos (by simp [hx]), ih]
      simp

/-- A string without the separator splits into itself alone. -/
theorem splitOnChar_single (c : Char) (s : Str)
    (h : s.all (fun x => !(x == c)) = true) : splitOnChar c s = [s] := by
  induction s with
  | nil => rfl
  | cons x t ih =>
    have hp : (!(x == c)) = true ∧ t.all (fun x => !(x == c)) = true := by simpa using h
    rw [splitOnChar]
    rw [if_neg (by simp; simpa using hp.1), ih hp.2]

/-- `intercalate` over a cons with nonempty tail. -/
theorem intercalate_cons_ne_nil (sep x : Str) (l : List Str) (h : l ≠ []) :
    List.intercalate sep (x :: l) = x ++ sep ++ List.intercalate sep l := by
  rcases l with _ | ⟨y, l⟩
  · exact absurd rfl h
  · simp [List.intercalate, List.intersperse, List.flatten]

/-- Joining the parts of a split with the separator restores the string. -/
theorem intercalate_splitOnChar (c : Char) (s : Str) :
    List.intercalate [c] (splitOnChar c s) = s := by
  induction s with
  | nil => rfl
  | cons x t ih =>
    rw [splitOnChar]
    rcases hx : (x == c) with _ | _
    · rw [if_neg (by simp [hx])]
      rcases hr : splitOnChar c t with _ | ⟨r, rs⟩
      · exact absurd hr (splitOnChar_ne_nil c t)
      · rw [hr] at ih
        rcases rs with _ | ⟨r2, rs⟩
        · simp only [List.intercalate] at ih ⊢
          simp at ih ⊢
          simp [ih]
        · rw [intercalate_cons_ne_nil [c] r (r2 :: rs) (by simp)] at ih
          rw [intercalate_cons_ne_nil [c] (x :: r) (r2 :: rs) (by simp)]
          rw [← ih]
          simp [List.append_assoc]
    · rw [if_pos (by simp [hx])]
      rw [intercalate_cons_ne_nil [c] [] _ (splitOnChar_ne_nil c t)]
      have hxc : x = c := by simpa using hx
      simp [ih, hxc]

/-- Normalization leaves a list of plain segments untouched (reversed onto the
accumulator). -/
theorem foldl_normSegStep_plain : ∀ (segs : List Str) (acc : List Str),
    segs.all plainSegB = true →
    List.foldl normSegStep acc segs = segs.reverse ++ acc := by
  intro segs
  induction segs with
  | nil => intro acc _; simp
  | cons seg rest ih =>
    intro acc h
    have hp : plainSegB seg = true ∧ rest.all plainSegB = true := by simpa using h
    have h1 : ¬(seg = []) := by
      intro he; subst he; exact absurd hp.1 (by decide)
    have h2 : ¬(seg = ['.']) := by
      intro he; subst he; exact absurd hp.1 (by decide)
    have h3 : ¬(seg = str "..") := by
      intro he; subst he; exact absurd hp.1 (by decide)
    rw [List.foldl_cons]
    rw [show normSegStep acc seg = seg :: acc from by
      unfold normSegStep
      rw [if_neg (by simp [h1, h2]), if_neg h3]]
    rw [ih (seg :: acc) hp.2]
    simp

/-- `intercalate` over an append of nonempty part lists. -/
theorem intercalate_append_ne_nil (sep : Str) : ∀ (A B : List Str), A ≠ [] → B ≠ [] →
    List.intercalate sep (A ++ B) =
      List.intercalate sep A ++ sep ++ List.intercalate sep B := by
  intro A
  induction A with
  | nil => intro B h _; exact absurd rfl h
  | cons x A ih =>
    intro B _ hB
    rcases A with _ | ⟨y, A⟩
    · rw [show ([x] ++ B) = x :: B from rfl, intercalate_cons_ne_nil sep x B hB]
      simp [List.intercalate]
    · rw [show ((x :: y :: A) ++ B) = x :: ((y :: A) ++ B) from rfl]
      rw [intercalate_cons_ne_nil sep x _ (by simp)]
      rw [ih B (by simp) hB]
      rw [intercalate_cons_ne_nil sep x (y :: A) (by simp)]
      simp [List.append_assoc]

/-- `path.join` of two plain relative paths concatenates them with a slash. -/
theorem pathJoin_plain (a b : Str) (ha : plainRelB a = true) (hb : plainRelB b = true) :
    pathJoin a b = a ++ '/' :: b := by
  unfold pathJoin pathJoinAll
  rw [show ([a, b].map splitSegs).flatten = splitSegs a ++ splitSegs b by simp]
  rw [foldl_normSegStep_plain _ [] (by
    simp only [List.all_append]
    unfold plainRelB at ha hb
    simp [ha, hb])]
  rw [List.append_nil, List.reverse_reverse]
  rw [intercalate_append_ne_nil (str "/") (splitSegs a) (splitSegs b)
    (splitOnChar_ne_nil '/' a) (splitOnChar_ne_nil '/' b)]
  rw [show List.intercalate (str "/") (splitSegs a) = a from intercalate_splitOnChar '/' a,
    show List.intercalate (str "/") (splitSegs b) = b from intercalate_splitOnChar '/' b]
  simp [str, List.append_assoc]

/-- Dropping the common prefix of a list against itself-plus-extension leaves exactly
the extension. -/
theorem dropCommonSegs_self_append : ∀ (xs ys : List Str),
    dropCommonSegs xs (xs ++ ys) = ([], ys) := by
  intro xs
  induction xs with
  | nil => intro ys; rfl
  | cons x xs ih =>
    intro ys
    rw [List.cons_append, dropCommonSegs, if_pos rfl]
    exact ih ys

/-- `path.relative` undoes the slash-concatenation of plain relative paths. -/
theorem pathRelative_plain (a b : Str) (ha : plainRelB a = true)
    (hb : plainRelB b = true) :
    pathRelative a (a ++ '/' :: b) = b := by
  unfold pathRelative
  dsimp only []
  rw [show splitSegs (a ++ '/' :: b) = splitSegs a ++ splitSegs b from
    splitOnChar_append '/' a b]
  rw [foldl_normSegStep_plain (splitSegs a) [] ha]
  rw [foldl_normSegStep_plain (splitSegs a ++ splitSegs b) [] (by
    simp only [List.all_append]
    unfold plainRelB at ha hb
    simp [ha, hb])]
  simp only [List.append_nil, List.reverse_reverse]
  rw [dropCommonSegs_self_append]
  simp only [List.map_nil, List.nil_append]
  exact intercalate_splitOnChar '/' b

end PathLemmas

section RemoteLemmas

/-- Reduction of the double-slash scan over a head pair that is not `//`. -/
theorem hasDoubleSlash_cons₂ (c d : Char) (u : Str) (h : ¬(c = '/' ∧ d = '/')) :
    hasDoubleSlash (c :: d :: u) = hasDoubleSlash (d :: u) := by
  rw [hasDoubleSlash.eq_def]
  split
  · rename_i heq
    have h1 := (List.cons.inj heq).1
    have h2 := (List.cons.inj (List.cons.inj heq).2).1
    exact absurd ⟨h1, h2⟩ h
  · rename_i x t heq
    rw [(List.cons.inj heq).2]
  · rename_i heq
    exact absurd heq (by simp)

/-- The scan finds no `//` in a single character. -/
theorem hasDoubleSlash_single (c : Char) : hasDoubleSlash [c] = false := by
  rw [hasDoubleSlash.eq_def]
  split
  · rename_i heq
    exact absurd (List.cons.inj heq).2 (by simp)
  · rename_i x t heq
    rw [← (List.cons.inj heq).2]
    decide
  · rfl

/-- A string containing `//` keeps it under appending. -/
theorem hasDoubleSlash_append (a : Str) (b : Str) (h : hasDoubleSlash a = true) :
    hasDoubleSlash (a ++ b) = true := by
  induction a with
  | nil => exact absurd h (by decide)
  | cons c t ih =>
    rcases t with _ | ⟨d, u⟩
    · exact absurd h (by rw [hasDoubleSlash_single]; decide)
    · by_cases hcd : c = '/' ∧ d = '/'
      · obtain ⟨h1, h2⟩ := hcd; subst h1; subst h2; rfl
      · rw [List.cons_append, List.cons_append, hasDoubleSlash_cons₂ c d (u ++ b) hcd]
        rw [hasDoubleSlash_cons₂ c d u hcd] at h
        simpa using ih h

/-- A base URL with an `http(s)://` scheme passes the remote test. -/
theorem hasDoubleSlash_of_http (b : Str)
    (h : ((str "https://").isPrefixOf b || (str "http://").isPrefixOf b) = true) :
    hasDoubleSlash b = true := by
  have h2 := h
  simp only [Bool.or_eq_true] at h2
  rcases h2 with h1 | h1
  · obtain ⟨t, rfl⟩ := List.isPrefixOf_iff_prefix.mp h1
    exact hasDoubleSlash_append (str "https://") t (by decide)
  · obtain ⟨t, rfl⟩ := List.isPrefixOf_iff_prefix.mp h1
    exact hasDoubleSlash_append (str "http://") t (by decide)

/-- Membership distributes over append for the character scan `contains`. -/
theorem contains_append (a b : Str) (c : Char) :
    (a ++ b).contains c = (a.contains c || b.contains c) := by
  rcases h1 : a.contains c <;> rcases h2 : b.contains c <;>
    simp_all [List.elem_iff, List.contains]

/-- A string with an `http(s)://` scheme starts with `h`. -/
theorem head_of_http (b : Str)
    (h : ((str "https://").isPrefixOf b || (str "http://").isPrefixOf b) = true) :
    ∃ t, b = 'h' :: t := by
  have h2 := h
  simp only [Bool.or_eq_true] at h2
  rcases h2 with h1 | h1
  · obtain ⟨t, rfl⟩ := List.isPrefixOf_iff_prefix.mp h1
    exact ⟨_, rfl⟩
  · obtain ⟨t, rfl⟩ := List.isPrefixOf_iff_prefix.mp h1
    exact ⟨_, rfl⟩

/-- Neither xref pattern matches an href that starts with `h`. -/
theorem xref_not_h (t : Str) : XrefLink.matches ('h' :: t) = false := by
  unfold XrefLink.matches xrefDocTest
  rw [show (str "doc:").isPrefixOf ('h' :: t) = false from rfl]
  rw [show xrefAnchorTest ('h' :: t) = false from rfl]
  simp

end RemoteLemmas

section MatterLemmas

/-- The serialized form is the front-matter block followed by the content. -/
theorem serializeSources_split (h : Headers) (c : Str) :
    serializeSources h c = serializeSources h [] ++ c := by
  simp [serializeSources, List.append_assoc]

/-- A list is a prefix of itself extended. -/
theorem isPrefixOf_self_append (a b : Str) : a.isPrefixOf (a ++ b) = true :=
  List.isPrefixOf_iff_prefix.mpr (List.prefix_append a b)

/-- Prefix test fails on differing heads. -/
theorem isPrefixOf_cons_ne (a b : Char) (as bs : Str) (h : (a == b) = false) :
    List.isPrefixOf (a :: as) (b :: bs) = false := by
  rw [List.isPrefixOf, h, Bool.false_and]

/-- The marker scan passes over a stretch free of the marker's first character. -/
theorem splitOnMarker_skip (pat s u : Str) (hp : pat.head? = some '\n')
    (hs : s.all (fun x => !(x == '\n')) = true) :
    splitOnMarker pat (s ++ u) =
      (splitOnMarker pat u).map (fun p => (s ++ p.1, p.2)) := by
  induction s with
  | nil =>
    rcases hr : splitOnMarker pat u with _ | ⟨p1, p2⟩ <;> simp [hr]
  | cons x t ih =>
    have hx : (!(x == '\n')) = true ∧ t.all (fun y => !(y == '\n')) = true := by
      simpa using hs
    rcases pat with _ | ⟨pc, pt⟩
    · simp at hp
    · have hpc : pc = '\n' := by simpa using hp
      rw [List.cons_append, splitOnMarker]
      rw [if_neg (by
        rw [isPrefixOf_cons_ne pc x pt (t ++ u) (by
          subst hpc
          have : (x == '\n') = false := by simpa using hx.1
          simpa [BEq.comm] using this)]
        simp)]
      rw [ih hx.2]
      rcases hr : splitOnMarker (pc :: pt) u with _ | ⟨p1, p2⟩ <;> simp [hr]

/-- The marker scan at an occurrence of the marker itself. -/
theorem splitOnMarker_self (pat c : Str) (hpat : pat ≠ []) :
    splitOnMarker pat (pat ++ c) = some ([], c) := by
  rcases pat with _ | ⟨x, t⟩
  · exact absurd rfl hpat
  · rw [List.cons_append, splitOnMarker]
    rw [if_pos (by
      rw [show x :: (t ++ c) = (x :: t) ++ c from rfl]
      exact isPrefixOf_self_append (x :: t) c)]
    rw [show x :: (t ++ c) = (x :: t) ++ c from rfl, List.drop_left]

/-- The delimiter scan skips a newline not followed by `---` and a newline. -/
theorem splitOnMarker_nl (r : Str) (h : (str "---\n").isPrefixOf r = false) :
    splitOnMarker (str "\n---\n") ('\n' :: r) =
      (splitOnMarker (str "\n---\n") r).map (fun p => ('\n' :: p.1, p.2)) := by
  rw [splitOnMarker]
  rw [if_neg (by
    rw [show str "\n---\n" = '\n' :: str "---\n" from rfl]
    rw [List.isPrefixOf]
    simp [h])]

end MatterLemmas

section MatterLemmasTwo

/-- The YAML line parse recovers a `title` entry. -/
theorem parseFMLine_title (X : Headers) (T : Str) :
    parseFMLine X (str "title: \"" ++ (T ++ ['"'])) = { X with title := T } := by
  unfold parseFMLine
  rw [if_pos (by
    rw [isPrefixOf_self_append]
    rw [show str "title: \"" ++ (T ++ ['"']) = (str "title: \"" ++ T) ++ ['"'] from by
      simp [List.append_assoc]]
    rw [List.getLast?_concat]
    rfl)]
  rw [show (8 : Nat) = (str "title: \"").length from rfl, List.drop_left,
    List.dropLast_concat]

/-- The YAML line parse recovers an `excerpt` entry. -/
theorem parseFMLine_excerpt (X : Headers) (E : Str) :
    parseFMLine X (str "excerpt: \"" ++ (E ++ ['"'])) = { X with excerpt := E } := by
  unfold parseFMLine
  rw [if_neg (by
    rw [show str "excerpt: \"" ++ (E ++ ['"']) =
      'e' :: (str "xcerpt: \"" ++ (E ++ ['"'])) from rfl]
    rw [show str "title: \"" = 't' :: str "itle: \"" from rfl]
    rw [isPrefixOf_cons_ne 't' 'e' _ _ (by decide)]
    simp)]
  rw [if_pos (by
    rw [isPrefixOf_self_append]
    rw [show str "excerpt: \"" ++ (E ++ ['"']) = (str "excerpt: \"" ++ E) ++ ['"'] from by
      simp [List.append_assoc]]
    rw [List.getLast?_concat]
    rfl)]
  rw [show (10 : Nat) = (str "excerpt: \"").length from rfl, List.drop_left,
    List.dropLast_concat]

/-- The YAML line parse recovers a `hidden: "true"` entry. -/
theorem parseFMLine_hidden (X : Headers) :
    parseFMLine X (str "hidden: \"true\"") = { X with hidden := true } := by
  unfold parseFMLine
  rw [if_neg (by decide), if_neg (by decide), if_pos rfl]

end MatterLemmasTwo

section MatterRoundTrip

/-- Re-parsing a serialized page recovers the headers it was written from (with no
`next` relation, which the serializer does not write) and the exact content. -/
theorem matterParse_serialize (h : Headers) (c : Str)
    (ht : h.title.all (fun x => !(x == '\n')) = true)
    (he : h.excerpt.all (fun x => !(x == '\n')) = true) :
    matterParse (serializeSources h c) =
      ({ title := h.title, excerpt := h.excerpt, hidden := h.hidden, next := none }, c) := by
  rcases hh : h.hidden with _ | _
  · have hs : serializeSources h c =
        str "---\n" ++ ((str "title: \"" ++ (h.title ++ ['"'])) ++
          ('\n' :: ((str "excerpt: \"" ++ (h.excerpt ++ ['"'])) ++
            (str "\n---\n" ++ c)))) := by
      unfold serializeSources
      rw [hh]
      rw [show str "---\ntitle: \"" = str "---\n" ++ str "title: \"" from by decide,
        show str "\"\nexcerpt: \"" = ['"'] ++ ('\n' :: str "excerpt: \"") from by decide,
        show (str "\"" : Str) = ['"'] from rfl]
      simp [List.append_assoc]
    rw [hs]
    unfold matterParse
    rw [if_pos (isPrefixOf_self_append (str "---\n") _)]
    rw [show (4 : Nat) = (str "---\n").length from rfl, List.drop_left]
    rw [splitOnMarker_skip (str "\n---\n") (str "title: \"" ++ (h.title ++ ['"'])) _ rfl
      (by
        rw [List.all_append, List.all_append]
        rw [show (str "title: \"").all (fun x => !(x == '\n')) = true from by decide,
          ht, show (['"'] : Str).all (fun x => !(x == '\n')) = true from by decide]
        rfl)]
    rw [splitOnMarker_nl _ (by
      rw [show (str "excerpt: \"" ++ (h.excerpt ++ ['"'])) ++ (str "\n---\n" ++ c) =
        'e' :: ((str "xcerpt: \"" ++ (h.excerpt ++ ['"'])) ++ (str "\n---\n" ++ c)) from rfl]
      rw [show str "---\n" = '-' :: str "--\n" from rfl]
      exact isPrefixOf_cons_ne '-' 'e' _ _ (by decide))]
    rw [splitOnMarker_skip (str "\n---\n") (str "excerpt: \"" ++ (h.excerpt ++ ['"'])) _ rfl
      (by
        rw [List.all_append, List.all_append]
        rw [show (str "excerpt: \"").all (fun x => !(x == '\n')) = true from by decide,
          he, show (['"'] : Str).all (fun x => !(x == '\n')) = true from by decide]
        rfl)]
    rw [splitOnMarker_self (str "\n---\n") c (by decide)]
    simp only [Option.map_some']
    try simp only [List.append_nil]
    rw [splitOnChar_append '\n' (str "title: \"" ++ (h.title ++ ['"']))
      (str "excerpt: \"" ++ (h.excerpt ++ ['"']))]
    rw [splitOnChar_single '\n' (str "title: \"" ++ (h.title ++ ['"'])) (by
      rw [List.all_append, List.all_append]
      rw [show (str "title: \"").all (fun x => !(x == '\n')) = true from by decide,
        ht, show (['"'] : Str).all (fun x => !(x == '\n')) = true from by decide]
      rfl)]
    rw [splitOnChar_single '\n' (str "excerpt: \"" ++ (h.excerpt ++ ['"'])) (by
      rw [List.all_append, List.all_append]
      rw [show (str "excerpt: \"").all (fun x => !(x == '\n')) = true from by decide,
        he, show (['"'] : Str).all (fun x => !(x == '\n')) = true from by decide]
      rfl)]
    rw [show ([str "title: \"" ++ (h.title ++ ['"'])] ++
      [str "excerpt: \"" ++ (h.excerpt ++ ['"'])]) =
      [str "title: \"" ++ (h.title ++ ['"']),
        str "excerpt: \"" ++ (h.excerpt ++ ['"'])] from rfl]
    rw [List.foldl_cons, List.foldl_cons, List.foldl_nil]
    rw [parseFMLine_title, parseFMLine_excerpt]
    rfl
  · have hs : serializeSources h c =
        str "---\n" ++ ((str "title: \"" ++ (h.title ++ ['"'])) ++
          ('\n' :: ((str "excerpt: \"" ++ (h.excerpt ++ ['"'])) ++
            ('\n' :: (str "hidden: \"true\"" ++ (str "\n---\n" ++ c)))))) := by
      unfold serializeSources
      rw [hh]
      rw [show str "---\ntitle: \"" = str "---\n" ++ str "title: \"" from by decide,
        show str "\"\nexcerpt: \"" = ['"'] ++ ('\n' :: str "excerpt: \"") from by decide,
        show str "\nhidden: \"true\"" = '\n' :: str "hidden: \"true\"" from rfl,
        show (str "\"" : Str) = ['"'] from rfl]
      simp [List.append_assoc]
    rw [hs]
    unfold matterParse
    rw [if_pos (isPrefixOf_self_append (str "---\n") _)]
    rw [show (4 : Nat) = (str "---\n").length from rfl, List.drop_left]
    rw [splitOnMarker_skip (str "\n---\n") (str "title: \"" ++ (h.title ++ ['"'])) _ rfl
      (by
        rw [List.all_append, List.all_append]
        rw [show (str "title: \"").all (fun x => !(x == '\n')) = true from by decide,
          ht, show (['"'] : Str).all (fun x => !(x == '\n')) = true from by decide]
        rfl)]
    rw [splitOnMarker_nl _ (by
      rw [show (str "excerpt: \"" ++ (h.excerpt ++ ['"'])) ++
          ('\n' :: (str "hidden: \"true\"" ++ (str "\n---\n" ++ c))) =
        'e' :: ((str "xcerpt: \"" ++ (h.excerpt ++ ['"'])) ++
          ('\n' :: (str "hidden: \"true\"" ++ (str "\n---\n" ++ c)))) from rfl]
      rw [show str "---\n" = '-' :: str "--\n" from rfl]
      exact isPrefixOf_cons_ne '-' 'e' _ _ (by decide))]
    rw [splitOnMarker_skip (str "\n---\n") (str "excerpt: \"" ++ (h.excerpt ++ ['"'])) _ rfl
      (by
        rw [List.all_append, List.all_append]
        rw [show (str "excerpt: \"").all (fun x => !(x == '\n')) = true from by decide,
          he, show (['"'] : Str).all (fun x => !(x == '\n')) = true from by decide]
        rfl)]
    rw [splitOnMarker_nl _ (by
      rw [show str "hidden: \"true\"" ++ (str "\n---\n" ++ c) =
        'h' :: (str "idden: \"true\"" ++ (str "\n---\n" ++ c)) from rfl]
      rw [show str "---\n" = '-' :: str "--\n" from rfl]
      exact isPrefixOf_cons_ne '-' 'h' _ _ (by decide))]
    rw [splitOnMarker_skip (str "\n---\n") (str "hidden: \"true\"") _ rfl (by decide)]
    rw [splitOnMarker_self (str "\n---\n") c (by decide)]
    simp only [Option.map_some']
    try simp only [List.append_nil]
    rw [splitOnChar_append '\n' (str "title: \"" ++ (h.title ++ ['"']))
      ((str "excerpt: \"" ++ (h.excerpt ++ ['"'])) ++ '\n' :: str "hidden: \"true\"")]
    rw [splitOnChar_append '\n' (str "excerpt: \"" ++ (h.excerpt ++ ['"']))
      (str "hidden: \"true\"")]
    rw [splitOnChar_single '\n' (str "title: \"" ++ (h.title ++ ['"'])) (by
      rw [List.all_append, List.all_append]
      rw [show (str "title: \"").all (fun x => !(x == '\n')) = true from by decide,
        ht, show (['"'] : Str).all (fun x => !(x == '\n')) = true from by decide]
      rfl)]
    rw [splitOnChar_single '\n' (str "excerpt: \"" ++ (h.excerpt ++ ['"'])) (by
      rw [List.all_append, List.all_append]
      rw [show (str "excerpt: \"").all (fun x => !(x == '\n')) = true from by decide,
        he, show (['"'] : Str).all (fun x => !(x == '\n')) = true from by decide]
      rfl)]
    rw [splitOnChar_single '\n' (str "hidden: \"true\"") (by decide)]
    rw [show ([str "title: \"" ++ (h.title ++ ['"'])] ++
      ([str "excerpt: \"" ++ (h.excerpt ++ ['"'])] ++ [str "hidden: \"true\""])) =
      [str "title: \"" ++ (h.title ++ ['"']),
        str "excerpt: \"" ++ (h.excerpt ++ ['"']), str "hidden: \"true\""] from rfl]
    rw [List.foldl_cons, List.foldl_cons, List.foldl_cons, List.foldl_nil]
    rw [parseFMLine_title, parseFMLine_excerpt, parseFMLine_hidden]
    rfl

end MatterRoundTrip

section HostedSpecModel

/-- A character that WHATWG URL serialization of a path keeps verbatim (never
percent-encodes or rewrites) and that ECMA-262 `decodeURI` leaves untouched (no `%`
in particular): letters, digits, `/`, `.`, `-`, `_`.  This is the character domain
on which the `newUrlToString` and `decodeURIOnCleanInput` models are exact. -/
def urlSafeCharB (c : Char) : Bool :=
  c.isAlpha || c.isDigit || c == '/' || c == '.' || c == '-' || c == '_'

/-- A string of URL-safe characters. -/
def urlSafeB (s : Str) : Bool := s.all urlSafeCharB

/-- A character the WHATWG URL host parser keeps verbatim (hosts are lowercased, so
uppercase letters are excluded): lowercase letters, digits, `.`, `-`. -/
def hostCharB (c : Char) : Bool := c.isLower || c.isDigit || c == '.' || c == '-'

/-- Well-formedness of the part of a base URL after its scheme (with the leading
slash of `https://` stripped): a nonempty host of plain host characters, then plain
path segments, then the terminating empty segment of the trailing `/`.  This rules
out the bases on which `new URL` deviates from concatenation: an empty host (on
which the constructor throws), `.`/`..`/empty path segments (which serialization
normalizes away), and uppercase host letters (which it lowercases). -/
def baseTailOkB (t : Str) : Bool :=
  let t2 := if t.head? == some '/' then t.drop 1 else t
  match splitSegs t2 with
  | host :: restSegs =>
    !host.isEmpty && host.all hostCharB &&
    (match restSegs.getLast? with
     | some last => last == ([] : Str) && restSegs.dropLast.all plainSegB
     | none => false)
  | [] => false

/-- Precondition on the configured base URL, confining it to the stated domain of
the `newUrlToString` model: an absolute `http(s)://` URL ENDING IN `/`, of clean
href characters without `@`, whose characters after the scheme are URL-safe (in
particular no `%`), with a nonempty lowercase host and plain path segments
(`baseTailOkB`).  On such a base, `new URL(rel, base).toString()` for a plain
URL-safe relative `rel` is exactly the concatenation `base ++ rel`: the base
re-serializes to itself, its path ends at the trailing `/`, resolution appends
`rel`'s segments verbatim, and no character of either part is percent-encoded or
normalized away. -/
def baseUrlOkB (b : Str) : Bool :=
  ((str "https://").isPrefixOf b || (str "http://").isPrefixOf b) &&
    hrefCleanB b && !(b.contains '@') && urlSafeB (b.drop 7) &&
    (b.getLast? == some '/') && baseTailOkB (b.drop 7)

/-- Precondition on the page directory: a plain relative path of clean, URL-safe
href characters without `@` (so URL resolution and `decodeURI` treat it
verbatim). -/
def hostedDirOkB (d : Str) : Bool :=
  plainRelB d && hrefCleanB d && !(d.contains '@') && urlSafeB d

/-- The per-link effect of `HostedFilesFilter.apply`: a local `UrlLink`/`Image`
occurrence has its href rehomed under the base URL; every other occurrence is left
untouched. -/
def hostedApplySpec (cfg : HostedConfig) (dir : Str) (l : LinkSpec) : LinkSpec :=
  if isUrlLinkInstance (classifySpec (renderLinkSpec l) l.href) &&
      !(hasDoubleSlash l.href) then
    { l with href := newUrlToString (pathJoin dir l.href) cfg.baseUrl }
  else l

/-- The per-link effect of `HostedFilesFilter.rollback`: a remote `UrlLink`/`Image`
occurrence whose href starts with the base URL has the prefix stripped, the rest
percent-decoded and relativized against the directory; every other occurrence is
left untouched. -/
def hostedRollbackSpec (cfg : HostedConfig) (dir : Str) (l : LinkSpec) : LinkSpec :=
  if isUrlLinkInstance (classifySpec (renderLinkSpec l) l.href) &&
      hasDoubleSlash l.href && cfg.baseUrl.isPrefixOf l.href then
    { l with href :=
      pathRelative dir (decodeURIOnCleanInput (l.href.drop cfg.baseUrl.length)) }
  else l

/-- Per-occurrence round-trip precondition: a remote href must not collide with the
base URL prefix, and a local `UrlLink`/`Image` href must be a plain relative path of
URL-safe characters (so URL resolution keeps it verbatim and `decodeURI` is the
identity on the rehomed suffix). -/
def hostedItemOkB (cfg : HostedConfig) (l : LinkSpec) : Bool :=
  if hasDoubleSlash l.href then !(cfg.baseUrl.isPrefixOf l.href)
  else !(isUrlLinkInstance (classifySpec (renderLinkSpec l) l.href)) ||
    (plainRelB l.href && urlSafeB l.href)

end HostedSpecModel

section HostedSpecLemmas

/-- The replacement fold of `apply` rewrites a shape pointwise by
`hostedApplySpec`. -/
theorem rewriteItemsL_apply (cfg : HostedConfig) (dir : Str) :
    ∀ (pos : Nat) (items : List (LinkSpec × Str)),
      rewriteItemsL (fun l => isUrlLinkInstance l.tag && l.isLocal)
        (fun l => newUrlToString (pathJoin dir l.href) cfg.baseUrl) pos items =
      items.map (fun it => (hostedApplySpec cfg dir it.1, it.2)) := by
  intro pos items
  induction items generalizing pos with
  | nil => rfl
  | cons it rest ih =>
    obtain ⟨l, seg⟩ := it
    rw [rewriteItemsL, List.map_cons]
    dsimp only []
    rw [ih]
    rfl

/-- The replacement fold of `rollback` rewrites a shape pointwise by
`hostedRollbackSpec`. -/
theorem rewriteItemsL_rollback (cfg : HostedConfig) (dir : Str) :
    ∀ (pos : Nat) (items : List (LinkSpec × Str)),
      rewriteItemsL
        (fun l => isUrlLinkInstance l.tag && l.isRemote && cfg.baseUrl.isPrefixOf l.href)
        (fun l => pathRelative dir (decodeURIOnCleanInput (l.href.drop cfg.baseUrl.length)))
        pos items =
      items.map (fun it => (hostedRollbackSpec cfg dir it.1, it.2)) := by
  intro pos items
  induction items generalizing pos with
  | nil => rfl
  | cons it rest ih =>
    obtain ⟨l, seg⟩ := it
    rw [rewriteItemsL, List.map_cons]
    dsimp only []
    rw [ih]
    rfl

end HostedSpecLemmas

section HostedRoundTripItem

/-- Character-level cleanliness of an href concatenated from clean parts. -/
theorem hrefCleanB_append_slash (b d h2 : Str) (hb : hrefCleanB b = true)
    (hd : hrefCleanB d = true) (hh : hrefCleanB h2 = true) :
    hrefCleanB (b ++ (d ++ '/' :: h2)) = true := by
  simp only [hrefCleanB, Bool.and_eq_true, List.all_append, List.all_cons] at hb hd hh ⊢
  refine ⟨?_, hb.2, hd.2, ⟨by decide, hh.2⟩⟩
  rcases b with _ | ⟨x, t⟩
  · simp at hb
  · simp

/-- The classifier marks the rehomed href of a clean local `UrlLink`/`Image`
occurrence as a `UrlLink` instance again, remote and base-prefixed. -/
theorem classify_rehomed (cfg : HostedConfig) (l : LinkSpec) (X : Str)
    (hb : baseUrlOkB cfg.baseUrl = true)
    (hinst : isUrlLinkInstance (classifySpec (renderLinkSpec l) l.href) = true)
    (hat : (cfg.baseUrl ++ X).contains '@' = (l.href).contains '@') :
    isUrlLinkInstance
      (classifySpec (renderLinkSpec { l with href := cfg.baseUrl ++ X })
        (cfg.baseUrl ++ X)) = true := by
  have hb1 : ((str "https://").isPrefixOf cfg.baseUrl ||
      (str "http://").isPrefixOf cfg.baseUrl) = true := by
    simp only [baseUrlOkB, Bool.and_eq_true] at hb
    exact hb.1.1.1.1.1
  rcases hbang : l.bang with _ | _
  · -- not an image: the original class is the url catch-all, and so is the new one
    have hnb : ¬((renderLinkSpec l).head? = some '!') := by
      rw [renderLinkSpec_head]
      simp [hbang]
    have hmail : MailtoLink.matches l.href = false := by
      rcases hm : MailtoLink.matches l.href with _ | _
      · rfl
      · rw [classifySpec, if_neg hnb, if_pos hm] at hinst
        simp [isUrlLinkInstance] at hinst
    have hmail2 : MailtoLink.matches (cfg.baseUrl ++ X) = false := by
      unfold MailtoLink.matches at hmail ⊢
      rw [hat, hmail]
    obtain ⟨t, hbt⟩ := head_of_http cfg.baseUrl hb1
    have hxref2 : XrefLink.matches (cfg.baseUrl ++ X) = false := by
      rw [hbt, List.cons_append]
      exact xref_not_h (t ++ X)
    rw [classifySpec, if_neg (by rw [renderLinkSpec_head]; simp),
      if_neg (by simp [hmail2]), if_neg (by simp [hxref2])]
    rfl
  · -- an image keeps its leading marker and thus its Image class
    rw [classifySpec, if_pos (by rw [renderLinkSpec_head])]
    rfl

end HostedRoundTripItem

section HostedRoundTripItemTwo

/-- Rollback inverts apply on a single clean occurrence satisfying the per-item
precondition. -/
theorem hostedSpec_roundtrip (cfg : HostedConfig) (dir : Str) (l : LinkSpec)
    (hb : baseUrlOkB cfg.baseUrl = true) (hd : hostedDirOkB dir = true)
    (hok : hostedItemOkB cfg l = true) :
    hostedRollbackSpec cfg dir (hostedApplySpec cfg dir l) = l := by
  have hbparts : ((str "https://").isPrefixOf cfg.baseUrl ||
      (str "http://").isPrefixOf cfg.baseUrl) = true ∧
      hrefCleanB cfg.baseUrl = true ∧ (cfg.baseUrl.contains '@') = false ∧
      urlSafeB (cfg.baseUrl.drop 7) = true ∧ cfg.baseUrl.getLast? = some '/' ∧
      baseTailOkB (cfg.baseUrl.drop 7) = true := by
    simpa [baseUrlOkB, and_assoc] using hb
  have hdparts : plainRelB dir = true ∧ hrefCleanB dir = true ∧
      (dir.contains '@') = false ∧ urlSafeB dir = true := by
    simpa [hostedDirOkB, and_assoc] using hd
  rcases hc : (isUrlLinkInstance (classifySpec (renderLinkSpec l) l.href) &&
      !(hasDoubleSlash l.href)) with _ | _
  · -- untouched by apply; show rollback does not touch it either
    rw [hostedApplySpec, if_neg (by simp [hc])]
    rw [hostedRollbackSpec, if_neg ?hcond]
    case hcond =>
      rcases hdb : hasDoubleSlash l.href with _ | _
      · -- local, so apply skipped it only because it is not a UrlLink instance
        have hinst : isUrlLinkInstance (classifySpec (renderLinkSpec l) l.href) = false := by
          rcases hi : isUrlLinkInstance (classifySpec (renderLinkSpec l) l.href) with _ | _
          · rfl
          · rw [hi, hdb] at hc; simp at hc
        simp [hinst]
      · -- remote: the precondition rules out a base-URL prefix
        have hpref : (cfg.baseUrl.isPrefixOf l.href) = false := by
          have := hok
          unfold hostedItemOkB at this
          rw [if_pos hdb] at this
          simpa using this
        simp [hpref]
  · -- rewritten by apply; rollback strips the base URL and relativizes back
    have hcparts : isUrlLinkInstance (classifySpec (renderLinkSpec l) l.href) = true ∧
        hasDoubleSlash l.href = false := by
      rcases hi : isUrlLinkInstance (classifySpec (renderLinkSpec l) l.href) with _ | _ <;>
        rcases hdb : hasDoubleSlash l.href with _ | _ <;>
          rw [hi, hdb] at hc <;> simp_all
    have hpr : plainRelB l.href = true ∧ urlSafeB l.href = true := by
      have := hok
      unfold hostedItemOkB at this
      rw [if_neg (by simp [hcparts.2])] at this
      simpa [hcparts.1] using this
    have hjoin : pathJoin dir l.href = dir ++ '/' :: l.href :=
      pathJoin_plain dir l.href hdparts.1 hpr.1
    rw [hostedApplySpec, if_pos (by simp [hcparts.1, hcparts.2])]
    rw [show newUrlToString (pathJoin dir l.href) cfg.baseUrl =
      cfg.baseUrl ++ (dir ++ '/' :: l.href) from by rw [newUrlToString, hjoin]]
    have hat : (cfg.baseUrl ++ (dir ++ '/' :: l.href)).contains '@' =
        (l.href).contains '@' := by
      rw [contains_append, contains_append, hbparts.2.2.1, hdparts.2.2.1]
      simp [List.contains_cons]
    have hinst2 := classify_rehomed cfg l (dir ++ '/' :: l.href) hb hcparts.1 hat
    have hdb2 : hasDoubleSlash (cfg.baseUrl ++ (dir ++ '/' :: l.href)) = true :=
      hasDoubleSlash_append cfg.baseUrl _ (hasDoubleSlash_of_http cfg.baseUrl hbparts.1)
    rw [hostedRollbackSpec, if_pos (by
      rw [show ({ l with href := cfg.baseUrl ++ (dir ++ '/' :: l.href) } : LinkSpec).href =
        cfg.baseUrl ++ (dir ++ '/' :: l.href) from rfl]
      rw [hinst2, hdb2, isPrefixOf_self_append]
      rfl)]
    rw [show ({ l with href := cfg.baseUrl ++ (dir ++ '/' :: l.href) } : LinkSpec).href =
      cfg.baseUrl ++ (dir ++ '/' :: l.href) from rfl]
    rw [show decodeURIOnCleanInput ((cfg.baseUrl ++ (dir ++ '/' :: l.href)).drop
        cfg.baseUrl.length) = dir ++ '/' :: l.href from by
      rw [decodeURIOnCleanInput, List.drop_left]]
    rw [pathRelative_plain dir l.href hdparts.1 hpr.1]

end HostedRoundTripItemTwo

section FMClean

/-- Cleanliness of a front-matter value for the round trip: no newline (so the
block's line structure is kept) and no `[` or `!` (so no link match can start inside
the serialized header). -/
def fmValCleanB (s : Str) : Bool := s.all (fun c => c ≠ '\n' && c ≠ '[' && c ≠ '!')

/-- A clean front-matter value contains no newline. -/
theorem fmVal_no_nl (s : Str) (h : fmValCleanB s = true) :
    s.all (fun x => !(x == '\n')) = true := by
  simp only [fmValCleanB, List.all_eq_true] at h ⊢
  intro x hx
  have := h x hx
  simp at this ⊢
  exact this.1.1

/-- A clean front-matter value is a clean plain segment. -/
theorem fmVal_seg (s : Str) (h : fmValCleanB s = true) : segCleanB s = true := by
  simp only [fmValCleanB, segCleanB, List.all_eq_true] at h ⊢
  intro x hx
  have := h x hx
  simp at this ⊢
  exact ⟨this.1.2, this.2⟩

/-- The serialized front-matter block of clean header values, extended by a clean
content prefix, is a clean segment (no `[`, no `!`). -/
theorem segClean_head (h : Headers) (chead : Str) (ht : fmValCleanB h.title = true)
    (he : fmValCleanB h.excerpt = true) (hc : segCleanB chead = true) :
    segCleanB (serializeSources h [] ++ chead) = true := by
  have ht2 := fmVal_seg h.title ht
  have he2 := fmVal_seg h.excerpt he
  unfold segCleanB at ht2 he2 hc ⊢
  rw [List.all_append]
  rw [hc, Bool.and_true]
  unfold serializeSources
  rcases hh : h.hidden with _ | _
  · rw [if_neg (by simp)]
    simp only [List.all_append, List.append_nil]
    rw [ht2, he2]
    rw [show (str "---\ntitle: \"").all (fun c => c ≠ '[' && c ≠ '!') = true from by decide,
      show (str "\"\nexcerpt: \"").all (fun c => c ≠ '[' && c ≠ '!') = true from by decide,
      show (str "\"").all (fun c => c ≠ '[' && c ≠ '!') = true from by decide,
      show (str "\n---\n").all (fun c => c ≠ '[' && c ≠ '!') = true from by decide]
    rfl
  · rw [if_pos rfl]
    simp only [List.all_append, List.append_nil]
    rw [ht2, he2]
    rw [show (str "---\ntitle: \"").all (fun c => c ≠ '[' && c ≠ '!') = true from by decide,
      show (str "\"\nexcerpt: \"").all (fun c => c ≠ '[' && c ≠ '!') = true from by decide,
      show (str "\"").all (fun c => c ≠ '[' && c ≠ '!') = true from by decide,
      show (str "\nhidden: \"true\"").all (fun c => c ≠ '[' && c ≠ '!') = true from by decide,
      show (str "\n---\n").all (fun c => c ≠ '[' && c ≠ '!') = true from by decide]
    rfl

end FMClean

section HostedCleanPreserve

/-- The per-link apply rewrite preserves occurrence cleanliness. -/
theorem linkClean_applySpec (cfg : HostedConfig) (dir : Str) (l : LinkSpec)
    (hb : baseUrlOkB cfg.baseUrl = true) (hd : hostedDirOkB dir = true)
    (hl : linkCleanB l = true) (hok : hostedItemOkB cfg l = true) :
    linkCleanB (hostedApplySpec cfg dir l) = true := by
  rcases hc : (isUrlLinkInstance (classifySpec (renderLinkSpec l) l.href) &&
      !(hasDoubleSlash l.href)) with _ | _
  · rw [hostedApplySpec, if_neg (by simp [hc])]
    exact hl
  · have hcparts : isUrlLinkInstance (classifySpec (renderLinkSpec l) l.href) = true ∧
        hasDoubleSlash l.href = false := by
      rcases hi : isUrlLinkInstance (classifySpec (renderLinkSpec l) l.href) with _ | _ <;>
        rcases hdb : hasDoubleSlash l.href with _ | _ <;>
          rw [hi, hdb] at hc <;> simp_all
    have hpr : plainRelB l.href = true ∧ urlSafeB l.href = true := by
      have := hok
      unfold hostedItemOkB at this
      rw [if_neg (by simp [hcparts.2])] at this
      simpa [hcparts.1] using this
    have hlparts : labelCleanB l.label = true ∧ hrefCleanB l.href = true ∧
        titleCleanB l.title = true := by
      simpa [linkCleanB, and_assoc] using hl
    have hbparts : hrefCleanB cfg.baseUrl = true := by
      simp only [baseUrlOkB, Bool.and_eq_true] at hb
      exact hb.1.1.1.1.2
    have hdparts : plainRelB dir = true ∧ hrefCleanB dir = true := by
      simp only [hostedDirOkB, Bool.and_eq_true] at hd
      exact ⟨hd.1.1.1, hd.1.1.2⟩
    rw [hostedApplySpec, if_pos (by simp [hcparts.1, hcparts.2])]
    rw [show newUrlToString (pathJoin dir l.href) cfg.baseUrl =
      cfg.baseUrl ++ (dir ++ '/' :: l.href) from by
        rw [newUrlToString, pathJoin_plain dir l.href hdparts.1 hpr.1]]
    unfold linkCleanB
    rw [show ({ l with href := cfg.baseUrl ++ (dir ++ '/' :: l.href) } : LinkSpec).label =
      l.label from rfl]
    rw [show ({ l with href := cfg.baseUrl ++ (dir ++ '/' :: l.href) } : LinkSpec).title =
      l.title from rfl]
    rw [show ({ l with href := cfg.baseUrl ++ (dir ++ '/' :: l.href) } : LinkSpec).href =
      cfg.baseUrl ++ (dir ++ '/' :: l.href) from rfl]
    rw [hlparts.1, hrefCleanB_append_slash cfg.baseUrl dir l.href hbparts hdparts.2
      hlparts.2.1, hlparts.2.2]
    rfl

/-- The pointwise apply rewrite preserves shape cleanliness. -/
theorem itemsClean_apply (cfg : HostedConfig) (dir : Str)
    (hb : baseUrlOkB cfg.baseUrl = true) (hd : hostedDirOkB dir = true) :
    ∀ (items : List (LinkSpec × Str)), itemsCleanB items = true →
      (items.all (fun it => hostedItemOkB cfg it.1)) = true →
      itemsCleanB (items.map (fun it => (hostedApplySpec cfg dir it.1, it.2))) = true := by
  intro items
  induction items with
  | nil => intro _ _; rfl
  | cons it rest ih =>
    intro hclean hok
    obtain ⟨l, seg⟩ := it
    have hcp : (linkCleanB l = true ∧ segCleanB seg = true) ∧
        itemsCleanB rest = true := by simpa [itemsCleanB] using hclean
    have hop : hostedItemOkB cfg l = true ∧
        (rest.all (fun it => hostedItemOkB cfg it.1)) = true := by simpa using hok
    rw [List.map_cons]
    have := ih hcp.2 hop.2
    simp only [itemsCleanB, List.all_cons] at this ⊢
    rw [this, linkClean_applySpec cfg dir l hb hd hcp.1.1 hop.1]
    rw [show segCleanB ((l, seg).2) = true from hcp.1.2]
    rfl

end HostedCleanPreserve

section SpliceBridge

/-- `replaceElements`' sorted fold over a filtered shape-link batch realizes the
pointwise shape rewrite on the rendered string. -/
theorem updatedSources_splice (p : Page) (head : Str) (items : List (LinkSpec × Str))
    (Q : Link → Bool) (g : Link → Str)
    (hsrc : p.sources = head ++ renderItems items)
    (hclean : itemsCleanB items = true) :
    p.updatedSources (((shapeLinksFrom head.length items).filter Q).map
      (fun l => (l, l.copyWithHref (g l)))) =
      head ++ renderItems (rewriteItemsL Q g head.length items) := by
  unfold Page.updatedSources
  have hasc : List.Pairwise (fun a b : Link × Link => a.1.positionIndex < b.1.positionIndex)
      (((shapeLinksFrom head.length items).filter Q).map
        (fun l => (l, l.copyWithHref (g l)))) := by
    rw [List.pairwise_map]
    exact (shapeLinksFrom_pairwise items head.length).filter Q
  rw [sortByPosDesc_of_ascending _ hasc]
  rw [List.foldl_reverse]
  rw [hsrc]
  exact foldr_splice Q g items head hclean

end SpliceBridge

section CreateSerialize

/-- `Page.create` on a string the serializer wrote reconstructs the page (the
re-parse drops any `next` relation, which the serializer does not write). -/
theorem Page.create_serialize (category : Str) (parent : Option Str) (slug : Str)
    (h : Headers) (c : Str)
    (ht : h.title.all (fun x => !(x == '\n')) = true)
    (he : h.excerpt.all (fun x => !(x == '\n')) = true) :
    Page.create category parent slug (serializeSources h c) =
      Page.build category parent slug c
        { title := h.title, excerpt := h.excerpt, hidden := h.hidden, next := none } := by
  unfold Page.create
  rw [matterParse_serialize h c ht he]

end CreateSerialize

section HostedPageLemmas

/-- `HostedFilesFilter.apply` on a page built from clean headers and a clean link
shape: a fresh page re-built from the pointwise-rewritten shape (the `next`
relation, which the serializer never writes, is dropped by the re-parse). -/
theorem hosted_apply_build (cfg : HostedConfig) (category : Str) (parent : Option Str)
    (slug : Str) (h : Headers) (chead : Str) (items : List (LinkSpec × Str)) (dir : Str)
    (hdir : (Page.build category parent slug (chead ++ renderItems items) h).directory = dir)
    (ht : fmValCleanB h.title = true) (he : fmValCleanB h.excerpt = true)
    (hch : segCleanB chead = true) (hit : itemsCleanB items = true) :
    HostedFilesFilter.apply cfg
      (Page.build category parent slug (chead ++ renderItems items) h) =
    Page.build category parent slug
      (chead ++ renderItems (items.map (fun it => (hostedApplySpec cfg dir it.1, it.2))))
      { title := h.title, excerpt := h.excerpt, hidden := h.hidden, next := none } := by
  have hsrc0 : serializeSources h (chead ++ renderItems items) =
      (serializeSources h [] ++ chead) ++ renderItems items := by
    rw [serializeSources_split]
    simp [List.append_assoc]
  have hhead : segCleanB (serializeSources h [] ++ chead) = true :=
    segClean_head h chead ht he hch
  have hlinks : (Page.build category parent slug (chead ++ renderItems items) h).links =
      shapeLinksFrom (serializeSources h [] ++ chead).length items := by
    show Link.findAll (serializeSources h (chead ++ renderItems items)) = _
    rw [hsrc0]
    exact findAll_render _ items hhead hit
  have hupd : (Page.build category parent slug (chead ++ renderItems items) h).updatedSources
      (HostedFilesFilter.applyReplacements cfg
        (Page.build category parent slug (chead ++ renderItems items) h)) =
      (serializeSources h [] ++ chead) ++
        renderItems (items.map (fun it => (hostedApplySpec cfg dir it.1, it.2))) := by
    rw [show HostedFilesFilter.applyReplacements cfg
        (Page.build category parent slug (chead ++ renderItems items) h) =
      ((shapeLinksFrom (serializeSources h [] ++ chead).length items).filter
        (fun l => isUrlLinkInstance l.tag && l.isLocal)).map
        (fun l => (l, l.copyWithHref (newUrlToString (pathJoin dir l.href) cfg.baseUrl)))
      from by
        unfold HostedFilesFilter.applyReplacements
        rw [hlinks, hdir]]
    rw [updatedSources_splice
      (Page.build category parent slug (chead ++ renderItems items) h)
      (serializeSources h [] ++ chead) items
      (fun l => isUrlLinkInstance l.tag && l.isLocal)
      (fun l => newUrlToString (pathJoin dir l.href) cfg.baseUrl) hsrc0 hit]
    rw [rewriteItemsL_apply cfg dir _ items]
  show Page.create category parent slug
    ((Page.build category parent slug (chead ++ renderItems items) h).updatedSources
      (HostedFilesFilter.applyReplacements cfg
        (Page.build category parent slug (chead ++ renderItems items) h))) = _
  rw [hupd]
  rw [show (serializeSources h [] ++ chead) ++
      renderItems (items.map (fun it => (hostedApplySpec cfg dir it.1, it.2))) =
    serializeSources h
      (chead ++ renderItems (items.map (fun it => (hostedApplySpec cfg dir it.1, it.2))))
    from by
      rw [serializeSources_split h (chead ++ _)]
      simp [List.append_assoc]]
  exact Page.create_serialize category parent slug h _
    (fmVal_no_nl _ ht) (fmVal_no_nl _ he)

/-- `HostedFilesFilter.rollback` on a page built from clean headers and a clean link
shape: a fresh page re-built from the pointwise rollback rewrite. -/
theorem hosted_rollback_build (cfg : HostedConfig) (category : Str)
    (parent : Option Str) (slug : Str) (h : Headers) (chead : Str)
    (items : List (LinkSpec × Str)) (dir : Str)
    (hdir : (Page.build category parent slug (chead ++ renderItems items) h).directory = dir)
    (ht : fmValCleanB h.title = true) (he : fmValCleanB h.excerpt = true)
    (hch : segCleanB chead = true) (hit : itemsCleanB items = true) :
    HostedFilesFilter.rollback cfg
      (Page.build category parent slug (chead ++ renderItems items) h) =
    Page.build category parent slug
      (chead ++ renderItems (items.map (fun it => (hostedRollbackSpec cfg dir it.1, it.2))))
      { title := h.title, excerpt := h.excerpt, hidden := h.hidden, next := none } := by
  have hsrc0 : serializeSources h (chead ++ renderItems items) =
      (serializeSources h [] ++ chead) ++ renderItems items := by
    rw [serializeSources_split]
    simp [List.append_assoc]
  have hhead : segCleanB (serializeSources h [] ++ chead) = true :=
    segClean_head h chead ht he hch
  have hlinks : (Page.build category parent slug (chead ++ renderItems items) h).links =
      shapeLinksFrom (serializeSources h [] ++ chead).length items := by
    show Link.findAll (serializeSources h (chead ++ renderItems items)) = _
    rw [hsrc0]
    exact findAll_render _ items hhead hit
  have hupd : (Page.build category parent slug (chead ++ renderItems items) h).updatedSources
      (HostedFilesFilter.rollbackReplacements cfg
        (Page.build category parent slug (chead ++ renderItems items) h)) =
      (serializeSources h [] ++ chead) ++
        renderItems (items.map (fun it => (hostedRollbackSpec cfg dir it.1, it.2))) := by
    rw [show HostedFilesFilter.rollbackReplacements cfg
        (Page.build category parent slug (chead ++ renderItems items) h) =
      ((shapeLinksFrom (serializeSources h [] ++ chead).length items).filter
        (fun l => isUrlLinkInstance l.tag && l.isRemote && cfg.baseUrl.isPrefixOf l.href)).map
        (fun l => (l, l.copyWithHref
          (pathRelative dir (decodeURIOnCleanInput (l.href.drop cfg.baseUrl.length)))))
      from by
        unfold HostedFilesFilter.rollbackReplacements
        rw [hlinks, hdir]]
    rw [updatedSources_splice
      (Page.build category parent slug (chead ++ renderItems items) h)
      (serializeSources h [] ++ chead) items
      (fun l => isUrlLinkInstance l.tag && l.isRemote && cfg.baseUrl.isPrefixOf l.href)
      (fun l => pathRelative dir (decodeURIOnCleanInput (l.href.drop cfg.baseUrl.length)))
      hsrc0 hit]
    rw [rewriteItemsL_rollback cfg dir _ items]
  show Page.create category parent slug
    ((Page.build category parent slug (chead ++ renderItems items) h).updatedSources
      (HostedFilesFilter.rollbackReplacements cfg
        (Page.build category parent slug (chead ++ renderItems items) h))) = _
  rw [hupd]
  rw [show (serializeSources h [] ++ chead) ++
      renderItems (items.map (fun it => (hostedRollbackSpec cfg dir it.1, it.2))) =
    serializeSources h
      (chead ++ renderItems (items.map (fun it => (hostedRollbackSpec cfg dir it.1, it.2))))
    from by
      rw [serializeSources_split h (chead ++ _)]
      simp [List.append_assoc]]
  exact Page.create_serialize category parent slug h _
    (fmVal_no_nl _ ht) (fmVal_no_nl _ he)

end HostedPageLemmas

section FooterLemmas

/-- The footer regex never matches the empty string. -/
theorem markerRemoveAll_nil : ∀ (fuel : Nat), markerRemoveAll footerName fuel [] = [] := by
  intro fuel
  rcases fuel with _ | n
  · rfl
  · rw [markerRemoveAll]
    rw [show markerFirstMatch footerName [] = none from rfl]

/-- When the opening and closing sentinels each occur exactly once — at the footer
block that `wrap` appended — the footer regex matches exactly that block. -/
theorem footer_marker_match (ct R : Str)
    (hst : occIndices (markerStartPat footerName)
      (ct ++ ContentMarker.wrap footerName R) = [ct.length])
    (hen : occIndices (markerEndPat footerName)
      (ct ++ ContentMarker.wrap footerName R) = [ct.length + R.length + 15]) :
    markerFirstMatch footerName (ct ++ ContentMarker.wrap footerName R) =
      some (ct.length, (ct ++ ContentMarker.wrap footerName R).length) := by
  have hlen : (ct ++ ContentMarker.wrap footerName R).length =
      ct.length + R.length + 27 := by
    simp [ContentMarker.wrap, markerStartPat, markerEndPat, footerName, str,
      List.length_append]
    omega
  unfold markerFirstMatch
  dsimp only []
  rw [hst, hen]
  rw [List.find?_cons_of_pos _ (by
    rw [show (markerStartPat footerName).length = 12 from rfl]
    simp
    omega)]
  dsimp only []
  rw [List.filter_cons_of_pos (by
    rw [show (markerStartPat footerName).length = 12 from rfl]
    simp
    omega)]
  rw [show List.filter (fun j =>
    decide (ct.length + (markerStartPat footerName).length ≤ j)) [] = [] from rfl]
  rw [show ([ct.length + R.length + 15] : List Nat).getLast? =
    some (ct.length + R.length + 15) from rfl]
  rw [show (markerEndPat footerName).length = 12 from rfl, hlen]

/-- Removing footer blocks from content that carries exactly the one appended block
restores the original content. -/
theorem footer_remove (ct R : Str)
    (hst : occIndices (markerStartPat footerName)
      (ct ++ ContentMarker.wrap footerName R) = [ct.length])
    (hen : occIndices (markerEndPat footerName)
      (ct ++ ContentMarker.wrap footerName R) = [ct.length + R.length + 15]) :
    markerRemoveAll footerName ((ct ++ ContentMarker.wrap footerName R).length + 1)
      (ct ++ ContentMarker.wrap footerName R) = ct := by
  rw [markerRemoveAll]
  rw [footer_marker_match ct R hst hen]
  dsimp only []
  rw [List.drop_length]
  rw [markerRemoveAll_nil]
  rw [List.take_left]
  exact List.append_nil ct

end FooterLemmas

section ClaimC1

/-- C1.  Symmetry contract of the two reference filters.  For the hosted-files
filter: on any document built from clean front-matter values, a clean content
prefix and a clean link shape, with a well-formed `http(s)://` base URL, a plain
directory, and links that neither collide with the base-URL prefix (remote case)
nor leave the plain-relative domain (local `UrlLink`/`Image` case), rolling back
the applied document restores the exact serialized form.  For the footer filter:
on any document whose content-plus-appended-footer carries the opening and closing
sentinels exactly once each (at the appended block), rollback after apply restores
the exact serialized form. -/
theorem claim_C1 :
    (∀ (cfg : HostedConfig) (category : Str) (parent : Option Str) (slug : Str)
        (h : Headers) (chead : Str) (items : List (LinkSpec × Str)),
      baseUrlOkB cfg.baseUrl = true →
      hostedDirOkB ((Page.build category parent slug
        (chead ++ renderItems items) h).directory) = true →
      fmValCleanB h.title = true → fmValCleanB h.excerpt = true →
      segCleanB chead = true → itemsCleanB items = true →
      (items.all (fun it => hostedItemOkB cfg it.1)) = true →
      (HostedFilesFilter.rollback cfg (HostedFilesFilter.apply cfg
          (Page.build category parent slug (chead ++ renderItems items) h))).sources =
        (Page.build category parent slug (chead ++ renderItems items) h).sources) ∧
    (∀ (p : Page) (rendered : Str),
      occIndices (markerStartPat footerName)
        (p.content ++ ContentMarker.wrap footerName rendered) = [p.content.length] →
      occIndices (markerEndPat footerName)
        (p.content ++ ContentMarker.wrap footerName rendered) =
        [p.content.length + rendered.length + 15] →
      (FooterFilter.rollback (FooterFilter.apply rendered p)).sources = p.sources) := by
  constructor
  · intro cfg category parent slug h chead items hb hd ht he hch hit hok
    rw [hosted_apply_build cfg category parent slug h chead items
      ((Page.build category parent slug (chead ++ renderItems items) h).directory)
      rfl ht he hch hit]
    rw [hosted_rollback_build cfg category parent slug
      { title := h.title, excerpt := h.excerpt, hidden := h.hidden, next := none }
      chead
      (items.map (fun it => (hostedApplySpec cfg
        ((Page.build category parent slug (chead ++ renderItems items) h).directory)
        it.1, it.2)))
      ((Page.build category parent slug (chead ++ renderItems items) h).directory)
      rfl ht he hch
      (itemsClean_apply cfg _ hb hd items hit hok)]
    have hmaps : (items.map (fun it => (hostedApplySpec cfg
        ((Page.build category parent slug (chead ++ renderItems items) h).directory)
        it.1, it.2))).map
        (fun it => (hostedRollbackSpec cfg
          ((Page.build category parent slug (chead ++ renderItems items) h).directory)
          it.1, it.2)) = items := by
      rw [List.map_map]
      have hpt : ∀ it ∈ items, ((fun it => (hostedRollbackSpec cfg
          ((Page.build category parent slug (chead ++ renderItems items) h).directory)
          it.1, it.2)) ∘
          (fun it => (hostedApplySpec cfg
            ((Page.build category parent slug (chead ++ renderItems items) h).directory)
            it.1, it.2))) it = it := by
        intro it hmem
        obtain ⟨l, seg⟩ := it
        show (hostedRollbackSpec cfg _ (hostedApplySpec cfg _ l), seg) = (l, seg)
        rw [hostedSpec_roundtrip cfg _ l hb hd (by
          rw [List.all_eq_true] at hok
          exact hok (l, seg) hmem)]
      conv_rhs => rw [← List.map_id items]
      exact List.map_congr_left hpt
    rw [hmaps]
    rfl
  · intro p rendered hst hen
    show serializeSources p.headers (markerRemoveAll footerName
      ((p.content ++ ContentMarker.wrap footerName rendered).length + 1)
      (p.content ++ ContentMarker.wrap footerName rendered)) =
      serializeSources p.headers p.content
    rw [footer_remove p.content rendered hst hen]

end ClaimC1

section ClaimC1Witness

/-- Witness configuration: the hosted-files base URL of the spec's scenario. -/
def c1cfg : HostedConfig := { baseUrl := str "https://cdn.example.com/" }

/-- Witness headers. -/
def c1h : Headers := { title := str "T", excerpt := str "E", hidden := false, next := none }

/-- Witness link shape: two local images, as in the spec's scenario. -/
def c1items : List (LinkSpec × Str) :=
  [({ bang := true, label := str "a", href := str "a.png", title := none }, str " mid "),
   ({ bang := true, label := str "b", href := str "sub/b.png", title := none }, str " end")]

/-- Witness page for the hosted-files round trip. -/
def c1page : Page :=
  Page.build (str "sms") none (str "pg") (str "intro " ++ renderItems c1items) c1h

/-- Witness page for the footer round trip. -/
def c1fpage : Page := Page.build (str "docs") none (str "x") (str "hello") c1h

/-- Witness for C1: both round trips at concrete documents. -/
theorem claim_C1_witness :
    ((HostedFilesFilter.rollback c1cfg (HostedFilesFilter.apply c1cfg c1page)).sources =
      c1page.sources) ∧
    ((FooterFilter.rollback (FooterFilter.apply (str "FOOT") c1fpage)).sources =
      c1fpage.sources) :=
  ⟨claim_C1.1 c1cfg (str "sms") none (str "pg") c1h (str "intro ") c1items
      (by decide) (by decide) (by decide) (by decide) (by decide) (by decide) (by decide),
    claim_C1.2 c1fpage (str "FOOT") (by decide) (by decide)⟩

end ClaimC1Witness

section ClaimC8

/-- Per-occurrence domain condition for the apply direction: when apply will touch
the occurrence (a local `UrlLink`/`Image`), its href must be a plain relative path
of URL-safe characters, so that the real `new URL(path.join(dir, href), baseUrl)`
is exactly the modeled concatenation. -/
def applyItemOkB (l : LinkSpec) : Bool :=
  !(isUrlLinkInstance (classifySpec (renderLinkSpec l) l.href) &&
      !(hasDoubleSlash l.href)) ||
    (plainRelB l.href && urlSafeB l.href)

/-- Per-occurrence domain condition for the rollback direction: when rollback will
touch the occurrence (a remote `UrlLink`/`Image` with the base-URL prefix), the
stripped suffix must be `%`-free, so that the real `decodeURI` is the identity on
it. -/
def rollbackItemOkB (cfg : HostedConfig) (l : LinkSpec) : Bool :=
  !(isUrlLinkInstance (classifySpec (renderLinkSpec l) l.href) &&
      hasDoubleSlash l.href && cfg.baseUrl.isPrefixOf l.href) ||
    !((l.href.drop cfg.baseUrl.length).contains '%')

/-- C8 (amended).  On a document built from clean front-matter values and a clean
link shape — with the base URL, the directory, and the touched hrefs confined to
the domain where the external URL and `decodeURI` models are exact —
`HostedFilesFilter.apply` rewrites the serialized form pointwise by
`hostedApplySpec`: the href of every local link that is a `UrlLink` instance
(`UrlLink` or `Image`) becomes `new URL(path.join(directory, href), baseUrl)`, and
every other link (including local `MailtoLink`/`XrefLink` occurrences, which the
original claim's "every local link" would cover) is left untouched.  And
`rollback` rewrites pointwise by `hostedRollbackSpec`: only remote `UrlLink`
instances whose href starts with the base URL are touched (prefix stripped,
percent-decoded, relativized against the directory); all others are untouched. -/
theorem claim_C8 :
    (∀ (cfg : HostedConfig) (category : Str) (parent : Option Str) (slug : Str)
        (h : Headers) (chead : Str) (items : List (LinkSpec × Str)),
      baseUrlOkB cfg.baseUrl = true →
      hostedDirOkB ((Page.build category parent slug
        (chead ++ renderItems items) h).directory) = true →
      (items.all (fun it => applyItemOkB it.1)) = true →
      fmValCleanB h.title = true → fmValCleanB h.excerpt = true →
      segCleanB chead = true → itemsCleanB items = true →
      (HostedFilesFilter.apply cfg
          (Page.build category parent slug (chead ++ renderItems items) h)).sources =
        serializeSources h (chead ++ renderItems (items.map (fun it =>
          (hostedApplySpec cfg
            ((Page.build category parent slug (chead ++ renderItems items) h).directory)
            it.1, it.2))))) ∧
    (∀ (cfg : HostedConfig) (category : Str) (parent : Option Str) (slug : Str)
        (h : Headers) (chead : Str) (items : List (LinkSpec × Str)),
      hostedDirOkB ((Page.build category parent slug
        (chead ++ renderItems items) h).directory) = true →
      (items.all (fun it => rollbackItemOkB cfg it.1)) = true →
      fmValCleanB h.title = true → fmValCleanB h.excerpt = true →
      segCleanB chead = true → itemsCleanB items = true →
      (HostedFilesFilter.rollback cfg
          (Page.build category parent slug (chead ++ renderItems items) h)).sources =
        serializeSources h (chead ++ renderItems (items.map (fun it =>
          (hostedRollbackSpec cfg
            ((Page.build category parent slug (chead ++ renderItems items) h).directory)
            it.1, it.2))))) := by
  constructor
  · intro cfg category parent slug h chead items hb hd hok ht he hch hit
    rw [hosted_apply_build cfg category parent slug h chead items
      ((Page.build category parent slug (chead ++ renderItems items) h).directory)
      rfl ht he hch hit]
    rfl
  · intro cfg category parent slug h chead items hd hok ht he hch hit
    rw [hosted_rollback_build cfg category parent slug h chead items
      ((Page.build category parent slug (chead ++ renderItems items) h).directory)
      rfl ht he hch hit]
    rfl

/-- Counterexample page for the claim's original universal reading: its content
holds a LOCAL link `[a](#sec)` (an anchor cross-reference, not a `UrlLink`
instance). -/
def c8page : Page :=
  Page.build (str "sms") none (str "pg") (str "see [a](#sec) ok")
    { title := str "T", excerpt := str "E", hidden := false, next := none }

/-- Counterexample configuration. -/
def c8cfg : HostedConfig := { baseUrl := str "https://cdn.example.com/" }

/-- Counterexample for C8 as stated: the document has a local link (href `#sec`),
yet `apply` leaves its href exactly as it was — it is NOT rewritten to the join of
the base URL, the directory and the href — refuting "apply rewrites the href of
every local link". -/
theorem claim_C8_counterexample :
    (∃ l ∈ c8page.links, l.isLocal = true ∧ l.href = str "#sec" ∧ l.tag = LinkTag.xref) ∧
    ((HostedFilesFilter.apply c8cfg c8page).links.map (fun l => l.href)) =
      [str "#sec"] := by decide

end ClaimC8

section ClaimC8Witness

/-- Witness configuration for the amended C8. -/
def c8wcfg : HostedConfig := { baseUrl := str "https://host.io/" }

/-- Witness headers for the amended C8. -/
def c8wh : Headers := { title := str "T", excerpt := str "E", hidden := false, next := none }

/-- Witness shape for the apply direction: one local image and one anchor xref. -/
def c8witems : List (LinkSpec × Str) :=
  [({ bang := true, label := str "i", href := str "i.png", title := none }, str " m "),
   ({ bang := false, label := str "a", href := str "#sec", title := none }, str " z")]

/-- Witness shape for the rollback direction: one hosted remote image and one
foreign remote link. -/
def c8ritems : List (LinkSpec × Str) :=
  [({ bang := true, label := str "i", href := str "https://host.io/c/i.png", title := none },
      str " m "),
   ({ bang := false, label := str "o", href := str "https://other.io/x", title := none },
      str " z")]

/-- Witness for C8 (amended): the pointwise characterization at concrete documents,
in both directions. -/
theorem claim_C8_witness :
    ((HostedFilesFilter.apply c8wcfg
        (Page.build (str "c") none (str "p") (str "go " ++ renderItems c8witems) c8wh)).sources =
      serializeSources c8wh (str "go " ++ renderItems (c8witems.map (fun it =>
        (hostedApplySpec c8wcfg
          ((Page.build (str "c") none (str "p")
            (str "go " ++ renderItems c8witems) c8wh).directory) it.1, it.2))))) ∧
    ((HostedFilesFilter.rollback c8wcfg
        (Page.build (str "c") none (str "p") (str "go " ++ renderItems c8ritems) c8wh)).sources =
      serializeSources c8wh (str "go " ++ renderItems (c8ritems.map (fun it =>
        (hostedRollbackSpec c8wcfg
          ((Page.build (str "c") none (str "p")
            (str "go " ++ renderItems c8ritems) c8wh).directory) it.1, it.2))))) :=
  ⟨claim_C8.1 c8wcfg (str "c") none (str "p") c8wh (str "go ") c8witems
      (by decide) (by decide) (by decide) (by decide) (by decide) (by decide) (by decide),
    claim_C8.2 c8wcfg (str "c") none (str "p") c8wh (str "go ") c8ritems
      (by decide) (by decide) (by decide) (by decide) (by decide) (by decide)⟩

end ClaimC8Witness
